import Mathlib

/-!
# AbeiTools search engine: a shallow embedding of `assets/js/search.js`

The development follows the `SearchManager` class: the index builder
(`_buildSearchIndex`), the static weight (`_calculateWeight`), the per-term
field scoring (`_calculateMatch`) and the ranking pass (`_search`), then the
selection state (`setCategory`, `_performSearch`, `_showCategoryTools`, `_clearSearch`,
`_handleURLParams`) as functions on an explicit `SearchManager` state, the event
listeners (`on`, `off`, `_emit`), the highlighter (`_applyHighlight`), and from
`assets/js/main.js` the category navigation and the scroll spy of `AppManager`.

Modelling conventions
* A JavaScript string is the list of its UTF-16 code units (`Str`).
  `includes`, `startsWith`, `trim`, `split(/\s+/)` and `join` are defined on
  that representation.
* `String.prototype.toLowerCase` is a built-in of the host; it is a field of
  `Host`, so every general theorem holds for whatever function the host
  provides.  `asciiLower` is the instance used on concrete ASCII inputs.
* A property that the source guards with `||` or `&&` is an `Option`; an absent
  property is `none`.  Truthiness of a string is non-emptiness.
* Scores and weights are natural numbers (every quantity the source adds is a
  non-negative integer literal).  `_calculateWeight` reads the lookup
  `categoryWeights[tool.category]` on the keys written in the object literal;
  `weightValue` follows the prototype chain, where the weight may not be a number.
* `Array.prototype.sort` is a stable sort; `results.push` appends at the end.
* A method that the class body defines twice is the later definition; the debounced
  search of the input listener is run at once; the page elements are present.
* Page positions are integers; time is a clock in milliseconds and a `setTimeout`
  callback runs when the clock reaches its due time.
-/

namespace AbeiTools

/-- A JavaScript string: its UTF-16 code units. -/
abbrev Str := List Nat

/-- Code units of a string literal (characters of the Basic Multilingual Plane). -/
def lit (s : String) : Str := s.toList.map Char.toNat

/-- The characters matched by `\s` (and removed by `trim`): ECMAScript WhiteSpace and
LineTerminator. -/
def isWhiteSpace (c : Nat) : Bool :=
  c == 9 || c == 10 || c == 11 || c == 12 || c == 13 || c == 32 || c == 160 ||
  c == 5760 || (8192 ≤ c && c ≤ 8202) || c == 8232 || c == 8233 || c == 8239 ||
  c == 8287 || c == 12288 || c == 65279

/-- Model of `s.startsWith(t)`. -/
def startsWith (s t : Str) : Bool := t.isPrefixOf s

/-- Model of `s.includes(t)`: `t` occurs in `s` as a contiguous block. -/
def includes : Str → Str → Bool
  | [], t => t.isEmpty
  | c :: s, t => t.isPrefixOf (c :: s) || includes s t

/-- Model of `s.trim()`. -/
def trim (s : Str) : Str :=
  ((s.dropWhile isWhiteSpace).reverse.dropWhile isWhiteSpace).reverse

/-- Model of `parts.join(sep)`. -/
def join (sep : Str) : List Str → Str
  | [] => []
  | [a] => a
  | a :: b :: rest => a ++ sep ++ join sep (b :: rest)

/-- Worker of `split(/\s+/)`: `cur` is the piece being read (reversed), `inWs` tells
that the previous code unit belonged to a separator run. -/
def splitWsGo : Bool → Str → Str → List Str
  | _, cur, [] => [cur.reverse]
  | inWs, cur, c :: cs =>
    if isWhiteSpace c then
      if inWs then splitWsGo true cur cs else cur.reverse :: splitWsGo true [] cs
    else splitWsGo false (c :: cur) cs

/-- Model of `s.split(/\s+/)`: the pieces between maximal runs of white space (the
first and the last piece may be empty). -/
def splitWs (s : Str) : List Str := splitWsGo false [] s

/-- ASCII instance of `toLowerCase`, used on concrete inputs. -/
def asciiLower (s : Str) : Str := s.map (fun c => if 65 ≤ c ∧ c ≤ 90 then c + 32 else c)

/-- What the class reads from its host: the lowercase conversion of strings and the
value of `window.i18n?.getCurrentLanguage()` (`none` when `window.i18n` is absent). -/
structure Host where
  toLowerCase : Str → Str
  i18nLanguage : Option Str

/-- Truthiness of an optional string property. -/
def truthy : Option Str → Bool
  | some (_ :: _) => true
  | _ => false

/-- Model of `a || b || ''` on optional strings. -/
def orElseEmpty (a b : Option Str) : Str :=
  match a with
  | some (c :: s) => c :: s
  | _ =>
    match b with
    | some (c :: s) => c :: s
    | _ => []

/-- Model of `a || ''`. -/
def orEmpty (a : Option Str) : Str := orElseEmpty a none

/-- The expression `window.i18n?.getCurrentLanguage() || 'zh'`. -/
def currentLang (h : Host) : Str :=
  match h.i18nLanguage with
  | some (c :: s) => c :: s
  | _ => lit "zh"

/-- ToolRecord: one entry of `links_curated.json`.  `name` and `description` map a
language code to a text. -/
structure ToolRecord where
  id : Option Str
  name : List (Str × Str)
  description : List (Str × Str)
  category : Option Str
  url : Option Str
  tags : Option (List Str)
  pricing : Option Str
deriving DecidableEq, Repr

/-- IndexEntry: the object built by `_buildSearchIndex` for one tool. -/
structure IndexEntry where
  id : Option Str
  tool : ToolRecord
  searchText : Str
  weight : Nat
deriving DecidableEq, Repr

/-- Highlight span of a result. -/
structure Highlight where
  field : Str
  term : Str
deriving DecidableEq, Repr

/-- SearchResult: the object `{...item, score, highlights}` pushed by `_search`. -/
structure SearchResult where
  id : Option Str
  tool : ToolRecord
  searchText : Str
  weight : Nat
  score : Nat
  highlights : List Highlight
deriving DecidableEq, Repr

/-- The fields of `this.searchConfig` (`highlightClass` is a style name, left out). -/
structure SearchConfig where
  minLength : Nat
  debounceTime : Nat
  maxResults : Nat
deriving DecidableEq, Repr

/-- The configuration set by the constructor. -/
def searchConfig : SearchConfig := ⟨1, 300, 100⟩

/-- The result of `_calculateMatch`. -/
structure MatchResult where
  score : Nat
  highlights : List Highlight
deriving DecidableEq, Repr

/-- The text `tool.name[currentLang] || tool.name.en || ''`. -/
def displayName (h : Host) (tool : ToolRecord) : Str :=
  orElseEmpty (tool.name.lookup (currentLang h)) (tool.name.lookup (lit "en"))

/-- The text `tool.description[currentLang] || tool.description.en || ''`. -/
def displayDescription (h : Host) (tool : ToolRecord) : Str :=
  orElseEmpty (tool.description.lookup (currentLang h)) (tool.description.lookup (lit "en"))

/-- The guard `tool.id && tool.id.toLowerCase().includes(term)`, also used for the
category. -/
def fieldMatches (h : Host) (field : Option Str) (term : Str) : Bool :=
  match field with
  | some (c :: s) => includes (h.toLowerCase (c :: s)) term
  | _ => false

/-- The loop over `tool.tags` that stops at the first matching tag. -/
def tagsMatch (h : Host) (tags : Option (List Str)) (term : Str) : Bool :=
  match tags with
  | some ts => ts.any (fun tag => includes (h.toLowerCase tag) term)
  | none => false

/-- `_calculateMatch(item, term)`. -/
def _calculateMatch (h : Host) (item : IndexEntry) (term : Str) : MatchResult :=
  let tool := item.tool
  let toolName := h.toLowerCase (displayName h tool)
  let s1 := if includes toolName term then 10 else 0
  let h1 : List Highlight := if includes toolName term then [⟨lit "name", term⟩] else []
  let s2 := if fieldMatches h tool.id term then s1 + 8 else s1
  let s3 := if fieldMatches h tool.category term then s2 + 6 else s2
  let s4 := if tagsMatch h tool.tags term then s3 + 4 else s3
  let toolDesc := h.toLowerCase (displayDescription h tool)
  let s5 := if includes toolDesc term then s4 + 2 else s4
  let h5 := if includes toolDesc term then h1 ++ [⟨lit "description", term⟩] else h1
  let s6 := if s5 = 0 ∧ includes item.searchText term then s5 + 1 else s5
  ⟨s6, h5⟩

/-- The list `premiumTools` of `_calculateWeight`. -/
def premiumTools : List Str :=
  [lit "chatgpt.com", lit "claude.ai", lit "chat.openai.com", lit "openai.com",
   lit "midjourney.com", lit "gemini.google.com", lit "perplexity.ai",
   lit "github.com", lit "notion.so", lit "canva.com", lit "stability.ai"]

/-- The list `popularTools` of `_calculateWeight`. -/
def popularTools : List Str :=
  [lit "leonardo.ai", lit "elevenlabs.io", lit "runwayml.com", lit "synthesia.io",
   lit "gamma.app", lit "character.ai", lit "huggingface.co", lit "cursor.com",
   lit "remove.bg", lit "grammarly.com", lit "zapier.com", lit "zoom.us"]

/-- The list `hotKeywords` of `_calculateWeight`; the last keyword is U+667A U+80FD. -/
def hotKeywords : List Str :=
  [lit "gpt", lit "chatgpt", lit "claude", lit "gemini", lit "midjourney", lit "ai",
   [26234, 33021]]

/-- The table `categoryWeights` of `_calculateWeight`. -/
def categoryWeights : List (Str × Nat) :=
  [(lit "chat", 15), (lit "creative", 12), (lit "search", 10), (lit "office", 8),
   (lit "coding", 10)]

/-- String conversion of a possibly absent property inside a `+` concatenation. -/
def jsToString (a : Option Str) : Str := a.getD (lit "undefined")

/-- The pricing branch of `_calculateWeight`. -/
def pricingBonus (pricing : Option Str) : Nat :=
  if pricing = some (lit "free") then 25
  else if pricing = some (lit "freemium") then 15
  else if pricing = some (lit "paid") then 10
  else 0

/-- The domain branch of `_calculateWeight`. -/
def domainBonus (url : Option Str) : Nat :=
  match url with
  | some (c :: s) =>
    if premiumTools.any (fun domain => includes (c :: s) domain) then 40
    else if popularTools.any (fun domain => includes (c :: s) domain) then 20
    else 0
  | _ => 0

/-- The value of `keywordBonus` after the `forEach` over `hotKeywords`. -/
def keywordBonus (h : Host) (tool : ToolRecord) : Nat :=
  let toolNameLower := h.toLowerCase
    (jsToString (tool.name.lookup (lit "zh")) ++ lit " " ++ jsToString (tool.name.lookup (lit "en")))
  hotKeywords.foldl (fun bonus keyword => if includes toolNameLower keyword then bonus + 5 else bonus) 0

/-- The category branch of `_calculateWeight` in the numeric reading: the bonus of a key
written in the table, 0 for any other id.  For an id that names an inherited member the
source's lookup finds that member instead; `weightValue` follows it. -/
def categoryBonus (category : Option Str) : Nat :=
  match category with
  | some (c :: s) => (categoryWeights.lookup (c :: s)).getD 0
  | _ => 0

/-- The self-hosted branch of `_calculateWeight`. -/
def selfHostedBonus (url : Option Str) : Nat :=
  match url with
  | some (c :: s) => if startsWith (c :: s) (lit "/") then 30 else 0
  | _ => 0

/-- `_calculateWeight(tool)` in the numeric reading: the number the source returns for a
tool whose category names no inherited member (`weightValue_of_plain_category`);
`weightValue` is the value it returns for every tool. -/
def _calculateWeight (h : Host) (tool : ToolRecord) : Nat :=
  0 + 20 + pricingBonus tool.pricing + domainBonus tool.url + min (keywordBonus h tool) 25 +
    categoryBonus tool.category + selfHostedBonus tool.url

/-- The array `searchTexts` of `_buildSearchIndex`. -/
def searchTexts (h : Host) (tool : ToolRecord) : List Str :=
  [displayName h tool, displayDescription h tool, orEmpty tool.category,
   join (lit " ") (tool.tags.getD []), orEmpty tool.pricing, orEmpty tool.id]

/-- The index entry that `_buildSearchIndex` maps a tool to. -/
def buildEntry (h : Host) (tool : ToolRecord) : IndexEntry :=
  { id := tool.id
    tool := tool
    searchText := trim (h.toLowerCase (join (lit " ") (searchTexts h tool)))
    weight := _calculateWeight h tool }

/-- `_buildSearchIndex()`: the new value of `this.searchIndex` for `this.tools = tools`. -/
def _buildSearchIndex (h : Host) (tools : List ToolRecord) : List IndexEntry :=
  tools.map (buildEntry h)

/-- The object `{...item, score, highlights}`. -/
def mkResult (item : IndexEntry) (score : Nat) (highlights : List Highlight) : SearchResult :=
  { id := item.id, tool := item.tool, searchText := item.searchText, weight := item.weight
    score := score, highlights := highlights }

/-- The locals `score`, `highlights` and `hasMatch` of the loop body of `_search`. -/
structure TermAcc where
  score : Nat
  highlights : List Highlight
  hasMatch : Bool
deriving DecidableEq, Repr

/-- One turn of the inner loop `for (const term of searchTerms)`. -/
def termStep (h : Host) (item : IndexEntry) (acc : TermAcc) (term : Str) : TermAcc :=
  if includes item.searchText term then
    let matchResult := _calculateMatch h item term
    ⟨acc.score + matchResult.score, acc.highlights ++ matchResult.highlights, true⟩
  else acc

/-- The inner loop of `_search` for one index entry. -/
def scoreItem (h : Host) (item : IndexEntry) (terms : List Str) : TermAcc :=
  terms.foldl (termStep h item) ⟨0, [], false⟩

/-- The outer loop `for (const item of this.searchIndex)` with its `break`; `results`
and `foundResults` are the loop variables. -/
def searchLoop (h : Host) (maxResults : Nat) (terms : List Str) :
    List IndexEntry → List SearchResult → Nat → List SearchResult
  | [], results, _ => results
  | item :: rest, results, foundResults =>
    let acc := scoreItem h item terms
    if acc.hasMatch && decide (acc.score > 0) then
      let results1 := results ++ [mkResult item (acc.score * item.weight) acc.highlights]
      if foundResults + 1 > maxResults * 2 then results1
      else searchLoop h maxResults terms rest results1 (foundResults + 1)
    else searchLoop h maxResults terms rest results foundResults

/-- The order `results.sort((a, b) => b.score - a.score)` sorts by: `a` may stand
before `b`. -/
def scoreGe (a b : SearchResult) : Prop := b.score ≤ a.score

instance : DecidableRel scoreGe := fun a b => inferInstanceAs (Decidable (b.score ≤ a.score))

/-- Model of `results.sort((a, b) => b.score - a.score)`: a stable sort. -/
def sortByScore (results : List SearchResult) : List SearchResult :=
  results.insertionSort scoreGe

/-- The array `searchTerms` of `_search`. -/
def searchTerms (h : Host) (query : Str) : List Str :=
  (splitWs (h.toLowerCase query)).filter (fun term => decide (term.length > 0))

/-- `_search(query)` on `this.searchIndex = index` and `this.searchConfig = cfg`. -/
def _search (h : Host) (cfg : SearchConfig) (index : List IndexEntry) (query : Str) :
    List SearchResult :=
  if query.length = 0 then
    index.map (fun item => mkResult item item.weight [])
  else
    let results := searchLoop h cfg.maxResults (searchTerms h query) index [] 0
    (sortByScore results).take cfg.maxResults

/-- The host used on concrete inputs: ASCII lowercase, no `window.i18n`. -/
def asciiHost : Host := ⟨asciiLower, none⟩

/-- What the loop body of `_search` pushes for `item`, if anything. -/
def scoreEntry (h : Host) (terms : List Str) (item : IndexEntry) : Option SearchResult :=
  let acc := scoreItem h item terms
  if acc.hasMatch && decide (acc.score > 0) then
    some (mkResult item (acc.score * item.weight) acc.highlights)
  else none

/-- Sum of the per-term scores of `item` over the terms its blob contains. -/
def termScoreSum (h : Host) (terms : List Str) (item : IndexEntry) : Nat :=
  ((terms.filter (fun term => includes item.searchText term)).map
    (fun term => (_calculateMatch h item term).score)).sum

/-- The value stored in `currentResults` by the `search` branch of `_handleURLParams`
(`if (searchQuery) this._performSearch(searchQuery)`): `none` when the branch is not
taken. -/
def handleURLSearchParam (h : Host) (cfg : SearchConfig) (index : List IndexEntry)
    (searchQuery : Option Str) : Option (List SearchResult) :=
  match searchQuery with
  | some (c :: s) => some (_search h cfg index (c :: s))
  | _ => none

/-- The value of a 0/1 indicator. -/
def ind (b : Bool) : Nat := if b then 1 else 0

/-- The field score as the specification words it: 10 for the name, 8 for the id, 6 for
the category, 4 for the tags (once), 2 for the description. -/
def fieldScoreSpec (h : Host) (item : IndexEntry) (term : Str) : Nat :=
  10 * ind (includes (h.toLowerCase (displayName h item.tool)) term) +
  8 * ind (includes (h.toLowerCase (orEmpty item.tool.id)) term) +
  6 * ind (includes (h.toLowerCase (orEmpty item.tool.category)) term) +
  4 * ind ((item.tool.tags.getD []).any (fun tag => includes (h.toLowerCase tag) term)) +
  2 * ind (includes (h.toLowerCase (displayDescription h item.tool)) term)

/-- The highlights as the specification words them. -/
def highlightsSpec (h : Host) (item : IndexEntry) (term : Str) : List Highlight :=
  (if includes (h.toLowerCase (displayName h item.tool)) term then [⟨lit "name", term⟩] else []) ++
  (if includes (h.toLowerCase (displayDescription h item.tool)) term
    then [⟨lit "description", term⟩] else [])

/-- A catalogue entry named `a`, numbered `i` in its id, with the given pricing. -/
def sampleTool (pricing : Option Str) (i : Nat) : ToolRecord :=
  { id := some [116, 48 + i / 100 % 10, 48 + i / 10 % 10, 48 + i % 10]
    name := [(lit "zh", lit "a"), (lit "en", lit "a")]
    description := [(lit "zh", lit "b"), (lit "en", lit "b")]
    category := some (lit "misc")
    url := none
    tags := none
    pricing := pricing }

/-- A catalogue of `n` tools without pricing followed by one free tool. -/
def sampleTools (n : Nat) : List ToolRecord :=
  (List.range n).map (sampleTool none) ++ [sampleTool (some (lit "free")) n]

/-- A tool named `ChatGPT Plus` of static weight 50. -/
def toolNamed : ToolRecord :=
  { id := some (lit "cgp")
    name := [(lit "en", lit "ChatGPT Plus")]
    description := [(lit "en", lit "Paid plan")]
    category := some (lit "coding")
    url := none
    tags := none
    pricing := some (lit "paid") }

/-- A tool of static weight 50 whose description mentions `chatgpt`. -/
def toolMentioning : ToolRecord :=
  { id := some (lit "other")
    name := [(lit "en", lit "Other")]
    description := [(lit "en", lit "works like chatgpt")]
    category := some (lit "chat")
    url := none
    tags := some [lit "assistant"]
    pricing := some (lit "freemium") }

/-! ## Categories and the state of the `SearchManager` -/

/-- Category: one value of the `categories` object of `categories.json`. -/
structure Category where
  name : List (Str × Str)
  icon : Str
  color : Str
  order : Option Int
  enabled : Option Bool
deriving DecidableEq, Repr

/-- CategoryResult: the object `{id, tool, score, highlights}` built by
`_showCategoryTools`. -/
structure CategoryResult where
  id : Option Str
  tool : ToolRecord
  score : Nat
  highlights : List Highlight
deriving DecidableEq, Repr

/-- The value of `this.currentResults`: the output of `_search` (assigned by
`_performSearch`; the constructor assigns the empty array) or the listing assigned by
`_showCategoryTools`. -/
inductive CurrentResults where
  | ranked (results : List SearchResult)
  | listed (results : List CategoryResult)
deriving DecidableEq, Repr

/-- What the page shows: nothing yet, the sections written by
`_renderAllToolsByCategories` (category id and its tools), the output of
`_renderSearchResults`, or the output of `_renderResults`. -/
inductive View where
  | blank
  | grouped (sections : List (Str × List ToolRecord))
  | searchResults (results : List SearchResult) (query : Str)
  | categoryListing (results : List CategoryResult)
deriving DecidableEq, Repr

/-- The fields of a `SearchManager` and the page state it reads and writes:
`categories` in the order of `Object.entries`, `searchInput` is `this.searchInput.value`,
`urlSearch` and `urlCategory` are the `search` and `category` URL parameters. -/
structure SearchManager where
  tools : List ToolRecord
  categories : List (Str × Category)
  searchIndex : List IndexEntry
  currentResults : CurrentResults
  currentCategory : Str
  searchInput : Str
  urlSearch : Option Str
  urlCategory : Option Str
  view : View
deriving DecidableEq, Repr

/-- The sort key `category.order || 999` of `_renderAllToolsByCategories`. -/
def orderKey (category : Category) : Int :=
  match category.order with
  | some n => if n = 0 then 999 else n
  | none => 999

/-- The order the comparator `(a.order || 999) - (b.order || 999)` sorts by. -/
def categoryBefore (a b : Str × Category) : Prop := orderKey a.2 ≤ orderKey b.2

instance : DecidableRel categoryBefore :=
  fun a b => inferInstanceAs (Decidable (orderKey a.2 ≤ orderKey b.2))

/-- The array `sortedCategories` of `_renderAllToolsByCategories`. -/
def sortedCategories (categories : List (Str × Category)) : List (Str × Category) :=
  (categories.filter (fun entry => entry.2.enabled != some false)).insertionSort categoryBefore

/-- The lookup `toolsByCategory[categoryId] || []` on the object built by
`Utils.array.groupBy(this.tools, 'category')`: the tools filed under the key, in
catalogue order (a tool without category is filed under `undefined`).  This is the
lookup for keys that name no inherited member: for a tool whose category names one,
`groupBy` raises a `TypeError`, and for such a category id the lookup finds the
inherited member instead of a list. -/
def toolsByCategory (tools : List ToolRecord) (categoryId : Str) : List ToolRecord :=
  tools.filter (fun tool => jsToString tool.category == categoryId)

/-- The sections written by the loop of `_renderAllToolsByCategories`. -/
def groupedSections (categories : List (Str × Category)) (tools : List ToolRecord) :
    List (Str × List ToolRecord) :=
  (sortedCategories categories).filterMap (fun entry =>
    if entry.2.enabled = some true then
      if (toolsByCategory tools entry.1).length = 0 then none
      else some (entry.1, toolsByCategory tools entry.1)
    else none)

/-- `_renderAllToolsByCategories()`. -/
def _renderAllToolsByCategories (s : SearchManager) : SearchManager :=
  { s with view := View.grouped (groupedSections s.categories s.tools) }

/-- The order `results.sort((a, b) => b.score - a.score)` sorts a category listing by. -/
def listScoreGe (a b : CategoryResult) : Prop := b.score ≤ a.score

instance : DecidableRel listScoreGe :=
  fun a b => inferInstanceAs (Decidable (b.score ≤ a.score))

/-- The array `results` of `_showCategoryTools` for the category `categoryId`, the scores
in the numeric reading; `listingValue` gives the listing with the values the source
computes for every category id. -/
def categoryResults (h : Host) (tools : List ToolRecord) (categoryId : Str) :
    List CategoryResult :=
  ((tools.filter (fun tool => tool.category == some categoryId)).map
    (fun tool => (⟨tool.id, tool, _calculateWeight h tool, []⟩ : CategoryResult))).insertionSort
      listScoreGe

/-- `_showCategoryTools()`. -/
def _showCategoryTools (h : Host) (s : SearchManager) : SearchManager :=
  if s.currentCategory = lit "all" then _renderAllToolsByCategories s
  else
    { s with
      currentResults := CurrentResults.listed (categoryResults h s.tools s.currentCategory)
      view := View.categoryListing (categoryResults h s.tools s.currentCategory) }

/-- `_performSearch(query)`. -/
def _performSearch (h : Host) (cfg : SearchConfig) (s : SearchManager) (query : Str) :
    SearchManager :=
  { s with
    currentResults := CurrentResults.ranked (_search h cfg s.searchIndex query)
    urlSearch := some query
    view := View.searchResults (_search h cfg s.searchIndex query) query }

/-- `_filterByCategory(results)`; no method of the class calls it. -/
def _filterByCategory (s : SearchManager) (results : List SearchResult) : List SearchResult :=
  if s.currentCategory = lit "all" then results
  else results.filter (fun item => item.tool.category == some s.currentCategory)

/-- `setCategory(categoryId)`. -/
def setCategory (h : Host) (cfg : SearchConfig) (s : SearchManager) (categoryId : Str) :
    SearchManager :=
  let s1 : SearchManager :=
    { s with
      currentCategory := categoryId
      urlCategory := if categoryId = lit "all" then none else some categoryId }
  match trim s.searchInput with
  | c :: query => _performSearch h cfg s1 (c :: query)
  | [] => _showCategoryTools h s1

/-- `_clearSearch()` as the class has it: the second definition (line 764), which
replaces the first one. -/
def _clearSearch (h : Host) (s : SearchManager) : SearchManager :=
  _showCategoryTools h { s with urlSearch := none }

/-- The first definition of `_clearSearch` (line 462), replaced by the second one. -/
def _clearSearchFirst (s : SearchManager) : SearchManager :=
  _renderAllToolsByCategories { s with urlSearch := none }

/-- The `input` listener of the search box for the new value `value` (the debounced
search is run at once). -/
def onInput (h : Host) (cfg : SearchConfig) (s : SearchManager) (value : Str) : SearchManager :=
  let s1 : SearchManager := { s with searchInput := value }
  if (trim value).length ≥ cfg.minLength then _performSearch h cfg s1 (trim value)
  else if (trim value).length = 0 then _clearSearch h s1
  else s1

/-- The `click` listener of the clear button. -/
def onClearClick (h : Host) (s : SearchManager) : SearchManager :=
  _clearSearch h { s with searchInput := [] }

/-- `_handleURLParams()`. -/
def _handleURLParams (h : Host) (cfg : SearchConfig) (s : SearchManager) : SearchManager :=
  let s1 : SearchManager :=
    match s.urlSearch with
    | some (c :: query) => _performSearch h cfg { s with searchInput := c :: query } (c :: query)
    | _ => s
  match s.urlCategory with
  | some (c :: category) =>
    if c :: category ≠ lit "all" then setCategory h cfg s1 (c :: category) else s1
  | _ => s1

/-- The assignment `this.searchIndex = this.tools.map(...)` of `_buildSearchIndex`. -/
def rebuildIndex (h : Host) (s : SearchManager) : SearchManager :=
  { s with searchIndex := _buildSearchIndex h s.tools }

/-- The state after the constructor and `_loadData`. -/
def loaded (tools : List ToolRecord) (categories : List (Str × Category))
    (urlSearch urlCategory : Option Str) : SearchManager :=
  { tools := tools, categories := categories, searchIndex := [],
    currentResults := CurrentResults.ranked [], currentCategory := lit "all", searchInput := [],
    urlSearch := urlSearch, urlCategory := urlCategory, view := View.blank }

/-- The state after `init()`: data loaded, index built, URL parameters handled. -/
def init (h : Host) (cfg : SearchConfig) (tools : List ToolRecord)
    (categories : List (Str × Category)) (urlSearch urlCategory : Option Str) : SearchManager :=
  _handleURLParams h cfg (rebuildIndex h (loaded tools categories urlSearch urlCategory))

/-- The operations of the selection state machine. -/
inductive Op where
  | setCategory (categoryId : Str)
  | search (value : Str)
  | clear
deriving DecidableEq, Repr

/-- One operation. -/
def step (h : Host) (cfg : SearchConfig) (s : SearchManager) : Op → SearchManager
  | Op.setCategory categoryId => setCategory h cfg s categoryId
  | Op.search value => onInput h cfg s value
  | Op.clear => onClearClick h s

/-- A sequence of operations. -/
def run (h : Host) (cfg : SearchConfig) (s : SearchManager) (ops : List Op) : SearchManager :=
  ops.foldl (step h cfg) s

/-- The test that `categoryId` is `all` or the id of a category that is not disabled. -/
def validCategory (categories : List (Str × Category)) (categoryId : Str) : Bool :=
  categoryId == lit "all" ||
    categories.any (fun entry => entry.1 == categoryId && entry.2.enabled != some false)

/-! ## The specification's wording of the index builder and of the keyword bonus -/

/-- The text `m[L] ?? m["en"] ?? ""` as the specification words it: an entry that is
present is taken even when it is the empty string. -/
def pickPresent (m : List (Str × Str)) (lang : Str) : Str :=
  match m.lookup lang with
  | some s => s
  | none => (m.lookup (lit "en")).getD []

/-- The text the source picks: the entry of the language when present and not empty,
else the `en` entry when present, else the empty string. -/
def pickNonEmpty (m : List (Str × Str)) (lang : Str) : Str :=
  if (m.lookup lang).getD [] ≠ [] then (m.lookup lang).getD [] else (m.lookup (lit "en")).getD []

/-- The search blob as the specification words it. -/
def searchBlobSpec (h : Host) (tool : ToolRecord) : Str :=
  trim (h.toLowerCase (join (lit " ")
    [pickPresent tool.name (currentLang h), pickPresent tool.description (currentLang h),
     tool.category.getD [], join (lit " ") (tool.tags.getD []), tool.pricing.getD [],
     tool.id.getD []]))

/-- The number of hype keywords that occur in the lowercased concatenation of the names
of the tool in all of its languages, as the specification words it. -/
def keywordCountSpec (h : Host) (tool : ToolRecord) : Nat :=
  (hotKeywords.filter (fun keyword =>
    includes (h.toLowerCase (join (lit " ") (tool.name.map Prod.snd))) keyword)).length

/-- The text scanned for keywords by `_calculateWeight`:
`(tool.name.zh + ' ' + tool.name.en).toLowerCase()`. -/
def toolNameLower (h : Host) (tool : ToolRecord) : Str :=
  h.toLowerCase
    (jsToString (tool.name.lookup (lit "zh")) ++ lit " " ++ jsToString (tool.name.lookup (lit "en")))

/-- A free tool of category `chat` on a premium domain, without hype keyword in its
names. -/
def toolOnGithub : ToolRecord :=
  { id := some (lit "x")
    name := [(lit "zh", lit "x"), (lit "en", lit "x")]
    description := []
    category := some (lit "chat")
    url := some (lit "https://github.com/x")
    tags := none
    pricing := some (lit "free") }

/-- A tool whose Spanish name holds a hype keyword. -/
def toolSpanish : ToolRecord :=
  { id := some (lit "helper")
    name := [(lit "zh", lit "Zhushou"), (lit "en", lit "Helper"), (lit "es", lit "Asistente Claude")]
    description := [(lit "en", lit "An assistant")]
    category := some (lit "chat")
    url := some (lit "https://helper.example/")
    tags := none
    pricing := some (lit "free") }

/-- A tool whose name in the default language `zh` is present and empty. -/
def toolEmptyName : ToolRecord :=
  { id := some (lit "helper")
    name := [(lit "zh", []), (lit "en", lit "Helper")]
    description := [(lit "zh", lit "zhushou"), (lit "en", lit "An assistant")]
    category := some (lit "chat")
    url := none
    tags := some [lit "assistant", lit "free"]
    pricing := some (lit "free") }

/-- A catalogue of categories: `chat` and `coding` enabled, `office` disabled. -/
def sampleCategories : List (Str × Category) :=
  [(lit "chat", ⟨[(lit "en", lit "Chat")], lit "c", lit "#111111", some 1, some true⟩),
   (lit "coding", ⟨[(lit "en", lit "Coding")], lit "d", lit "#222222", some 2, some true⟩),
   (lit "office", ⟨[(lit "en", lit "Office")], lit "o", lit "#333333", some 3, some false⟩)]

/-! ## Grouping, the initial render and the category navigation -/

/-- One step of the `reduce` of `Utils.array.groupBy`:
`(groups[group] = groups[group] || []).push(item)`. -/
def groupPush (groups : List (Str × List ToolRecord)) (group : Str) (item : ToolRecord) :
    List (Str × List ToolRecord) :=
  match groups with
  | [] => [(group, [item])]
  | (key, items) :: rest =>
    if key = group then (key, items ++ [item]) :: rest
    else (key, items) :: groupPush rest group item

/-- `Utils.array.groupBy(tools, 'category')`: the groups in order of first appearance. -/
def groupByCategory (tools : List ToolRecord) : List (Str × List ToolRecord) :=
  tools.foldl (fun groups item => groupPush groups (jsToString item.category) item) []

/-- `renderInitialTools()`. -/
def renderInitialTools (s : SearchManager) : SearchManager :=
  _renderAllToolsByCategories s

/-- The sort key `category.order || 0` of `_renderCategoriesNav` (main.js). -/
def navOrderKey (category : Category) : Int :=
  match category.order with
  | some n => if n = 0 then 0 else n
  | none => 0

/-- The order the comparator `(a.order || 0) - (b.order || 0)` sorts by. -/
def navBefore (a b : Str × Category) : Prop := navOrderKey a.2 ≤ navOrderKey b.2

instance : DecidableRel navBefore :=
  fun a b => inferInstanceAs (Decidable (navOrderKey a.2 ≤ navOrderKey b.2))

/-- The categories `_renderCategoriesNav` creates an item for, in the order of the items. -/
def navCategories (categories : List (Str × Category)) : List (Str × Category) :=
  (categories.filter (fun entry => entry.2.enabled != some false)).insertionSort navBefore

/-- The `data-category` values of the buttons written by `_renderCategoriesNav`: the item
`all`, then one item per category. -/
def navItemIds (categories : List (Str × Category)) : List Str :=
  lit "all" :: (navCategories categories).map Prod.fst

/-! ## The scroll spy of `AppManager` (main.js) -/

/-- A registered section: its id and the place of its element on the page (distance of
its top edge from the top of the page, and its height). -/
structure Section where
  id : Str
  top : Int
  height : Int
deriving DecidableEq, Repr

/-- The value `element.getBoundingClientRect().top` when the page is scrolled by
`scrollY`. -/
def rectTop (sec : Section) (scrollY : Int) : Int := sec.top - scrollY

/-- The object `this.scrollSpy`. -/
structure ScrollSpy where
  sections : List Section
  activeSection : Option Str
  isScrolling : Bool
deriving DecidableEq, Repr

/-- The fields of `this.config` of `AppManager`. -/
structure AppConfig where
  mobileBreakpoint : Nat
  backToTopThreshold : Nat
  sidebarTransitionDuration : Nat
  loadingMinDuration : Nat
  scrollSpyOffset : Int
deriving DecidableEq, Repr

/-- The configuration set by the constructor of `AppManager`. -/
def appConfig : AppConfig := ⟨768, 700, 300, 800, 100⟩

/-- The state of the application: the search manager, the scroll spy, the buttons of the
category navigation (`navItems`) and the one that carries `category-active`
(`navActive`), the clock in milliseconds and the due times of the pending
`setTimeout(() => this.scrollSpy.isScrolling = false, 500)` callbacks. -/
structure AppManager where
  searchManager : SearchManager
  scrollSpy : ScrollSpy
  navItems : List Str
  navActive : Option Str
  now : Nat
  timers : List Nat
deriving DecidableEq, Repr

/-- The loop of `_updateScrollSpy`: the id of the first section whose element holds the
line `scrollY + scrollSpyOffset`. -/
def findActiveSection (cfg : AppConfig) (scrollY : Int) : List Section → Option Str
  | [] => none
  | sec :: rest =>
    let elementTop := scrollY + rectTop sec scrollY
    let elementBottom := elementTop + sec.height
    if elementTop ≤ scrollY + cfg.scrollSpyOffset ∧ elementBottom > scrollY + cfg.scrollSpyOffset
    then some sec.id
    else findActiveSection cfg scrollY rest

/-- The value of `activeSection` before the final test of `_updateScrollSpy`: the section
found by the loop, or the first section when the loop found none (an empty id is
falsy). -/
def resolveActiveSection (cfg : AppConfig) (scrollY : Int) (sections : List Section) :
    Option Str :=
  match findActiveSection cfg scrollY sections with
  | some (c :: s) => some (c :: s)
  | _ =>
    match sections with
    | first :: _ => some first.id
    | [] => none

/-- `_updateActiveCategory(categoryId)`: the class `category-active` is taken from every
button and given to the button of `categoryId`, if there is one. -/
def _updateActiveCategory (app : AppManager) (categoryId : Str) : AppManager :=
  { app with navActive := if categoryId ∈ app.navItems then some categoryId else none }

/-- `_updateActiveCategoryByScroll(sectionId)`. -/
def _updateActiveCategoryByScroll (app : AppManager) (sectionId : Str) : AppManager :=
  if app.scrollSpy.isScrolling then app else _updateActiveCategory app sectionId

/-- `_updateScrollSpy()` for a scroll event at `window.scrollY = scrollY`. -/
def _updateScrollSpy (cfg : AppConfig) (app : AppManager) (scrollY : Int) : AppManager :=
  if app.scrollSpy.sections.length = 0 then app
  else
    match resolveActiveSection cfg scrollY app.scrollSpy.sections with
    | some (c :: s) =>
      if some (c :: s) ≠ app.scrollSpy.activeSection then
        _updateActiveCategoryByScroll
          { app with scrollSpy := { app.scrollSpy with activeSection := some (c :: s) } } (c :: s)
      else app
    | _ => app

/-- What the rendering done by `setCategory` leaves of the registered sections: every
render replaces the content of `#all-tools-container`, so the section elements registered
before are detached from the page, and `_renderResults` hides the container itself (the
section `all`) while a category listing is shown.  A detached or hidden element reports
an empty rectangle, which holds no line. -/
def sectionsAfterRender (view : View) (sections : List Section) : List Section :=
  sections.map (fun sec =>
    if sec.id = lit "all" then
      match view with
      | View.categoryListing _ => { sec with height := 0 }
      | _ => sec
    else { sec with height := 0 })

/-- `_selectCategoryWithScroll(categoryId)` at the time `app.now`. -/
def _selectCategoryWithScroll (h : Host) (cfg : SearchConfig) (app : AppManager)
    (categoryId : Str) : AppManager :=
  let app1 : AppManager := { app with scrollSpy := { app.scrollSpy with isScrolling := true } }
  let app2 := _updateActiveCategory app1 categoryId
  { app2 with
    searchManager := setCategory h cfg app2.searchManager categoryId
    scrollSpy :=
      { app2.scrollSpy with
        sections := sectionsAfterRender (setCategory h cfg app2.searchManager categoryId).view
          app2.scrollSpy.sections }
    timers := app2.timers ++ [app2.now + 500] }

/-- The passing of time up to `t`: every pending callback that is due runs
(`this.scrollSpy.isScrolling = false`) and leaves the queue. -/
def advanceTo (app : AppManager) (t : Nat) : AppManager :=
  { app with
    now := max app.now t
    timers := app.timers.filter (fun due => decide (t < due))
    scrollSpy :=
      if app.timers.any (fun due => decide (due ≤ t)) then
        { app.scrollSpy with isScrolling := false }
      else app.scrollSpy }

/-- The application once started: nothing selected, no timer pending. -/
def startedApp (s : SearchManager) (sections : List Section) : AppManager :=
  { searchManager := s
    scrollSpy := ⟨sections, none, false⟩
    navItems := navItemIds s.categories
    navActive := some (lit "all")
    now := 0
    timers := [] }

/-! ## The event listeners of `SearchManager` -/

/-- How a call of a listener ends: it returns or it throws, leaving the world in some
state either way. -/
inductive Outcome (W : Type) where
  | returned (world : W)
  | threw (world : W)

/-- The world a call leaves. -/
def Outcome.world {W : Type} : Outcome W → W
  | Outcome.returned w => w
  | Outcome.threw w => w

/-- A registered callback: `ident` stands for the identity of the function object,
`call` for its behaviour on the event data, and `unregisters` for the identities it
passes to `off` for the event being emitted while it runs. -/
structure Listener (W D : Type) where
  ident : Nat
  call : D → W → Outcome W
  unregisters : List Nat

/-- What `_emit` has done: the world it leaves, the calls it made in order (listener
and argument), and the listeners whose exception it caught and logged. -/
structure EmitResult (W D : Type) where
  world : W
  calls : List (Nat × D)
  logged : List Nat

/-- The object `this.listeners` after the constructor. -/
def initialListeners (W D : Type) : List (Str × List (Listener W D)) :=
  [(lit "search-start", []), (lit "search-complete", []), (lit "search-clear", []),
   (lit "category-change", [])]

/-- `on(event, callback)` for an event name that names no inherited member (for such a
name the source raises a `TypeError` at `push`). -/
def onEvent {W D : Type} (listeners : List (Str × List (Listener W D))) (event : Str)
    (callback : Listener W D) : List (Str × List (Listener W D)) :=
  match listeners with
  | [] => [(event, [callback])]
  | (key, callbacks) :: rest =>
    if key = event then (key, callbacks ++ [callback]) :: rest
    else (key, callbacks) :: onEvent rest event callback

/-- The `splice` of `off`: the first callback with the identity `ident` is removed. -/
def removeFirst {W D : Type} (ident : Nat) : List (Listener W D) → List (Listener W D)
  | [] => []
  | callback :: rest =>
    if callback.ident = ident then rest else callback :: removeFirst ident rest

/-- `off(event, callback)`. -/
def offEvent {W D : Type} (listeners : List (Str × List (Listener W D))) (event : Str)
    (callback : Listener W D) : List (Str × List (Listener W D)) :=
  match listeners with
  | [] => []
  | (key, callbacks) :: rest =>
    if key = event then (key, removeFirst callback.ident callbacks) :: rest
    else (key, callbacks) :: offEvent rest event callback

/-- The body of the `forEach` of `_emit`: the call inside `try`, the log inside
`catch`. -/
def emitStep {W D : Type} (data : D) (acc : EmitResult W D) (callback : Listener W D) :
    EmitResult W D :=
  match callback.call data acc.world with
  | Outcome.returned w => ⟨w, acc.calls ++ [(callback.ident, data)], acc.logged⟩
  | Outcome.threw w => ⟨w, acc.calls ++ [(callback.ident, data)], acc.logged ++ [callback.ident]⟩


/-! ## Highlighting -/

/-- The opening wrapper inserted by `_applyHighlight`. -/
def markOpen : Str :=
  lit "<mark class=" ++ [34] ++ lit "bg-yellow-200 px-1 py-0.5 rounded" ++ [34] ++ lit ">"

/-- The closing wrapper inserted by `_applyHighlight`. -/
def markClose : Str := lit "</mark>"

/-- The characters of the class `[.*+?^$\x7b\x7d()|[\]\\]` of `_escapeRegExp`. -/
def regExpSpecial : List Nat := [46, 42, 43, 63, 94, 36, 123, 125, 40, 41, 124, 91, 93, 92]

/-- `_escapeRegExp(string)`: a backslash is put before every special character. -/
def _escapeRegExp (s : Str) : Str :=
  s.flatMap (fun c => if c ∈ regExpSpecial then [92, c] else [c])

/-- The text matched by a pattern made of ordinary characters and escaped characters. -/
def patternLiteral : Str → Str
  | [] => []
  | [c] => [c]
  | c :: d :: rest => if c = 92 then d :: patternLiteral rest else c :: patternLiteral (d :: rest)

/-- The test that `pattern` matches at the start of `text` under the flag `i`: code unit
by code unit, up to `canonicalize`. -/
def matchesAt (canonicalize : Nat → Nat) : Str → Str → Bool
  | [], _ => true
  | _ :: _, [] => false
  | p :: ps, c :: cs => canonicalize p == canonicalize c && matchesAt canonicalize ps cs

/-- Model of `text.replace(new RegExp('(' + pattern + ')', 'gi'), markOpen + '$1' +
markClose)` for a non-empty literal: `pending` counts the code units of the current match
still to be copied. -/
def replaceGo (canonicalize : Nat → Nat) (literal : Str) : Nat → Str → Str
  | _, [] => []
  | 0, c :: cs =>
    if literal ≠ [] ∧ matchesAt canonicalize literal (c :: cs) = true then
      markOpen ++ c ::
        (if literal.length - 1 = 0 then markClose ++ replaceGo canonicalize literal 0 cs
         else replaceGo canonicalize literal (literal.length - 1) cs)
    else c :: replaceGo canonicalize literal 0 cs
  | pending + 1, c :: cs =>
    c :: (if pending = 0 then markClose ++ replaceGo canonicalize literal 0 cs
          else replaceGo canonicalize literal pending cs)

/-- `_applyHighlight(text, query)`. -/
def _applyHighlight (h : Host) (canonicalize : Nat → Nat) (text query : Str) : Str :=
  if query = [] ∨ text = [] then text
  else
    (searchTerms h query).foldl
      (fun highlightedText term =>
        replaceGo canonicalize (patternLiteral (_escapeRegExp term)) 0 highlightedText)
      text

/-- The deletion of every opening and closing wrapper from a text, left to right;
`pending` counts the code units of the current wrapper still to be dropped. -/
def stripMarks : Nat → Str → Str
  | _, [] => []
  | 0, c :: cs =>
    if markOpen.isPrefixOf (c :: cs) then stripMarks (markOpen.length - 1) cs
    else if markClose.isPrefixOf (c :: cs) then stripMarks (markClose.length - 1) cs
    else c :: stripMarks 0 cs
  | pending + 1, _ :: cs => stripMarks pending cs

/-- ASCII instance of the canonicalisation of the flag `i`. -/
def asciiCanon (c : Nat) : Nat := if 97 ≤ c ∧ c ≤ 122 then c - 32 else c

/-- The result entry as an index entry: the fields `_search` copies from `item`. -/
def toEntry (r : SearchResult) : IndexEntry := ⟨r.id, r.tool, r.searchText, r.weight⟩

/-! ## Sample data for the navigation and the scroll spy -/

/-- A tool of the category `categoryId`. -/
def toolIn (categoryId : Str) : ToolRecord :=
  { id := some (lit "t-" ++ categoryId)
    name := [(lit "zh", lit "x"), (lit "en", lit "x")]
    description := []
    category := some categoryId
    url := none
    tags := none
    pricing := none }

/-- A category set whose only category, `chat`, has no `enabled` flag. -/
def categoriesNoFlag : List (Str × Category) :=
  [(lit "chat", ⟨[(lit "en", lit "Chat")], lit "c", lit "#111111", some 1, none⟩)]

/-- A category set in which `chat` has the display order 5 and `coding` has none. -/
def categoriesNoOrder : List (Str × Category) :=
  [(lit "chat", ⟨[(lit "en", lit "Chat")], lit "c", lit "#111111", some 5, some true⟩),
   (lit "coding", ⟨[(lit "en", lit "Coding")], lit "d", lit "#222222", none, some true⟩)]

/-- Two sections: `all` from 0 to 500 and `chat` from 500 to 1000. -/
def sampleSections : List Section := [⟨lit "all", 0, 500⟩, ⟨lit "chat", 500, 500⟩]

/-- The started application with sections `all` and `chat`, after a first scroll event at
the top of the page. -/
def sampleApp : AppManager :=
  _updateScrollSpy appConfig
    (startedApp (loaded [toolIn (lit "chat")] sampleCategories none none) sampleSections) 0

/-- The application on a fresh page: the grouped catalogue is rendered, the sections `all`
and `chat` are registered, no scroll event has been handled yet. -/
def freshApp : AppManager :=
  startedApp (renderInitialTools (loaded [toolIn (lit "chat")] sampleCategories none none))
    sampleSections

/-- The fresh application right after the selection of `chat` at time 0. -/
def guardedApp : AppManager :=
  _selectCategoryWithScroll asciiHost searchConfig freshApp (lit "chat")

/-- The sample application after a selection of `chat` at time 0 and a selection of
`coding` at time 300. -/
def twoSelections : AppManager :=
  _selectCategoryWithScroll asciiHost searchConfig
    (advanceTo (_selectCategoryWithScroll asciiHost searchConfig sampleApp (lit "chat")) 300)
    (lit "coding")

/-! ## Property lookups that follow the prototype chain

`categoryWeights[tool.category]` is a property lookup on an object literal: a key that
is not written in the literal but names a member every object inherits is found too, and
is not a number.  `_calculateWeight`, `categoryBonus` and `categoryResults` above give the
numeric reading, which is the source's value for every category id that names no
inherited member; the definitions below follow the lookup as the source performs it. -/

/-- The names of the members an object literal inherits. -/
def inheritedKeys : List Str :=
  [lit "constructor", lit "toString", lit "toLocaleString", lit "valueOf",
   lit "hasOwnProperty", lit "isPrototypeOf", lit "propertyIsEnumerable", lit "__proto__",
   lit "__defineGetter__", lit "__defineSetter__", lit "__lookupGetter__",
   lit "__lookupSetter__"]

/-- A value that a weight or a score can be: a number, or something that is not a number
(the string that `weight += categoryWeights[...]` makes of an inherited member, and the
`NaN` that `score * item.weight` makes of such a string). -/
inductive JsValue where
  | number (n : Nat)
  | notNumber
deriving DecidableEq, Repr

/-- The value `_calculateWeight(tool)` returns, the lookup `categoryWeights[tool.category]`
following the prototype chain: once the weight is a string, `weight += 30` keeps it a
string. -/
def weightValue (h : Host) (tool : ToolRecord) : JsValue :=
  let weight := 0 + 20 + pricingBonus tool.pricing + domainBonus tool.url +
    min (keywordBonus h tool) 25
  match tool.category with
  | some (c :: s) =>
    match categoryWeights.lookup (c :: s) with
    | some n => JsValue.number (weight + n + selfHostedBonus tool.url)
    | none =>
      if (c :: s) ∈ inheritedKeys then JsValue.notNumber
      else JsValue.number (weight + selfHostedBonus tool.url)
  | _ => JsValue.number (weight + selfHostedBonus tool.url)

/-- The value of `score * item.weight`. -/
def scoreValue (score : Nat) (weight : JsValue) : JsValue :=
  match weight with
  | JsValue.number n => JsValue.number (score * n)
  | JsValue.notNumber => JsValue.notNumber

/-- The test that the comparator `(a, b) => b.score - a.score` does not ask for `b` before
`a`: the difference is not positive (it is `NaN`, read as 0, when a score is not a
number). -/
def valueBefore (a b : ToolRecord × JsValue) : Prop :=
  match a.2, b.2 with
  | JsValue.number x, JsValue.number y => y ≤ x
  | _, _ => True

instance : DecidableRel valueBefore := fun a b => by
  unfold valueBefore
  split <;> infer_instance

/-- The tools and scores returned by `_search(query)` on the index built from `tools`, the
weights being the values `_calculateWeight` returns. -/
def searchValue (h : Host) (cfg : SearchConfig) (tools : List ToolRecord) (query : Str) :
    List (ToolRecord × JsValue) :=
  if query.length = 0 then tools.map (fun tool => (tool, weightValue h tool))
  else
    (((tools.filterMap (fun tool =>
        (scoreEntry h (searchTerms h query) (buildEntry h tool)).map (fun _ =>
          (tool, scoreValue (termScoreSum h (searchTerms h query) (buildEntry h tool))
            (weightValue h tool))))).take (cfg.maxResults * 2 + 1)).insertionSort
      valueBefore).take cfg.maxResults

/-- The tools and scores of the listing `_showCategoryTools` builds for `categoryId`, the
scores being the values `_calculateWeight` returns. -/
def listingValue (h : Host) (tools : List ToolRecord) (categoryId : Str) :
    List (ToolRecord × JsValue) :=
  ((tools.filter (fun tool => tool.category == some categoryId)).map
    (fun tool => (tool, weightValue h tool))).insertionSort valueBefore

/-- A tool of the category `constructor` without pricing. -/
def toolPa : ToolRecord :=
  { id := some (lit "pa")
    name := [(lit "zh", lit "x"), (lit "en", lit "x")]
    description := []
    category := some (lit "constructor")
    url := none
    tags := none
    pricing := none }

/-- A free tool of the category `constructor`. -/
def toolPb : ToolRecord :=
  { id := some (lit "pb")
    name := [(lit "zh", lit "x"), (lit "en", lit "x")]
    description := []
    category := some (lit "constructor")
    url := none
    tags := none
    pricing := some (lit "free") }

/-- A tool of the category `constructor` named `ChatGPT Plus`. -/
def toolCa : ToolRecord :=
  { id := some (lit "ca")
    name := [(lit "en", lit "ChatGPT Plus")]
    description := [(lit "en", lit "Paid plan")]
    category := some (lit "constructor")
    url := none
    tags := none
    pricing := none }

/-- A paid tool of the category `constructor` whose description mentions `chatgpt`. -/
def toolCb : ToolRecord :=
  { id := some (lit "cb")
    name := [(lit "en", lit "Other")]
    description := [(lit "en", lit "works like chatgpt")]
    category := some (lit "constructor")
    url := none
    tags := none
    pricing := some (lit "paid") }

/-! ## The `forEach` of `_emit` over the live array -/

/-- The array of the event after the calls of `off` a callback makes while it runs:
`off` splices the array that `_emit` is iterating. -/
def afterCall {W D : Type} (callback : Listener W D) (callbacks : List (Listener W D)) :
    List (Listener W D) :=
  callback.unregisters.foldl (fun array ident => removeFirst ident array) callbacks

/-- The `forEach` of `_emit`: the indices `k, k + 1, ...` below the length the array had at
the start are visited in turn (`remaining` of them are left), an index the array no
longer has is passed over, and each call runs inside `try`/`catch`. -/
def emitLoop {W D : Type} (data : D) :
    Nat → Nat → List (Listener W D) → EmitResult W D → EmitResult W D
  | 0, _, _, acc => acc
  | remaining + 1, k, callbacks, acc =>
    match callbacks.get? k with
    | none => emitLoop data remaining (k + 1) callbacks acc
    | some callback =>
      emitLoop data remaining (k + 1) (afterCall callback callbacks) (emitStep data acc callback)

/-- `_emit(event, data)`; `none` stands for the `TypeError` raised when `event` names an
inherited member, which `this.listeners[event]` finds and which has no `forEach`. -/
def _emit {W D : Type} (listeners : List (Str × List (Listener W D))) (event : Str) (data : D)
    (world : W) : Option (EmitResult W D) :=
  match listeners.lookup event with
  | some callbacks => some (emitLoop data callbacks.length 0 callbacks ⟨world, [], []⟩)
  | none => if event ∈ inheritedKeys then none else some ⟨world, [], []⟩

/-- A listener that counts its calls in the world and unregisters itself. -/
def listenerOnce : Listener Nat Nat := ⟨1, fun _ world => Outcome.returned (world + 1), [1]⟩

/-- A listener that counts its calls in the world. -/
def listenerPlain : Listener Nat Nat := ⟨2, fun _ world => Outcome.returned (world + 1), []⟩

/-- The registry after `on('search-start', listenerOnce)` and
`on('search-start', listenerPlain)`. -/
def sampleRegistry : List (Str × List (Listener Nat Nat)) :=
  onEvent (onEvent (initialListeners Nat Nat) (lit "search-start") listenerOnce)
    (lit "search-start") listenerPlain

/-! ## Strings -/

theorem includes_iff (s t : Str) : includes s t = true ↔ t <:+: s := by
  induction s with
  | nil => cases t <;> simp [includes]
  | cons c s ih =>
    rw [includes, Bool.or_eq_true, ih, List.infix_cons_iff, List.isPrefixOf_iff_prefix]

theorem includes_nil_left (t : Str) (ht : t ≠ []) : includes [] t = false := by
  cases t with
  | nil => exact absurd rfl ht
  | cons a t => rfl

/-! ## The inner loop of `_search` -/

theorem foldl_termStep_score (h : Host) (item : IndexEntry) (terms : List Str) (acc : TermAcc) :
    (terms.foldl (termStep h item) acc).score = acc.score + termScoreSum h terms item := by
  induction terms generalizing acc with
  | nil => simp [termScoreSum]
  | cons t ts ih =>
    rw [List.foldl_cons, ih]
    by_cases ht : includes item.searchText t = true
    · simp [termStep, termScoreSum, ht, List.filter_cons, Nat.add_assoc]
    · simp [termStep, termScoreSum, ht, List.filter_cons]

theorem foldl_termStep_hasMatch (h : Host) (item : IndexEntry) (terms : List Str) (acc : TermAcc) :
    (terms.foldl (termStep h item) acc).hasMatch =
      (acc.hasMatch || terms.any (fun term => includes item.searchText term)) := by
  induction terms generalizing acc with
  | nil => simp
  | cons t ts ih =>
    rw [List.foldl_cons, ih]
    by_cases ht : includes item.searchText t = true
    · simp [termStep, ht]
    · simp [termStep, ht]

theorem scoreItem_score (h : Host) (item : IndexEntry) (terms : List Str) :
    (scoreItem h item terms).score = termScoreSum h terms item := by
  simp [scoreItem, foldl_termStep_score]

theorem scoreItem_hasMatch (h : Host) (item : IndexEntry) (terms : List Str) :
    (scoreItem h item terms).hasMatch = terms.any (fun term => includes item.searchText term) := by
  simp [scoreItem, foldl_termStep_hasMatch]

theorem scoreEntry_some {h : Host} {terms : List Str} {item : IndexEntry} {r : SearchResult}
    (hr : scoreEntry h terms item = some r) :
    r = mkResult item (termScoreSum h terms item * item.weight) (scoreItem h item terms).highlights ∧
      terms.any (fun term => includes item.searchText term) = true ∧
      0 < termScoreSum h terms item := by
  unfold scoreEntry at hr
  simp only [scoreItem_score, scoreItem_hasMatch] at hr
  split at hr
  · rename_i hc
    simp only [Bool.and_eq_true, decide_eq_true_eq] at hc
    exact ⟨(Option.some.inj hr).symm, hc.1, hc.2⟩
  · exact absurd hr (by simp)

/-! ## The outer loop of `_search` -/

theorem searchLoop_eq (h : Host) (m : Nat) (terms : List Str) (index : List IndexEntry) :
    ∀ (results : List SearchResult) (found : Nat), found ≤ m * 2 →
      searchLoop h m terms index results found =
        results ++ (index.filterMap (scoreEntry h terms)).take (m * 2 + 1 - found) := by
  induction index with
  | nil => intro results found _; simp [searchLoop]
  | cons item rest ih =>
    intro results found hf
    unfold searchLoop
    by_cases hc : ((scoreItem h item terms).hasMatch && decide ((scoreItem h item terms).score > 0)) = true
    · have hs : scoreEntry h terms item =
          some (mkResult item ((scoreItem h item terms).score * item.weight)
            (scoreItem h item terms).highlights) := by
        simp only [scoreEntry, hc, if_true]
      simp only [hc, if_true, List.filterMap_cons, hs]
      by_cases hb : found + 1 > m * 2
      · have h1 : m * 2 + 1 - found = 1 := by omega
        simp [hb, h1]
      · have h1 : m * 2 + 1 - found = (m * 2 + 1 - (found + 1)) + 1 := by omega
        rw [if_neg hb, ih _ _ (by omega), h1, List.take_succ_cons]
        simp
    · have hs : scoreEntry h terms item = none := by
        simp only [scoreEntry, hc]
        simp
      simp only [hc, List.filterMap_cons, hs]
      exact ih _ _ hf

/-- The entries collected by the loop of `_search` before sorting. -/
theorem searchLoop_init (h : Host) (m : Nat) (terms : List Str) (index : List IndexEntry) :
    searchLoop h m terms index [] 0 = (index.filterMap (scoreEntry h terms)).take (m * 2 + 1) := by
  rw [searchLoop_eq h m terms index [] 0 (Nat.zero_le _)]
  simp

theorem search_of_ne_nil (h : Host) (cfg : SearchConfig) (index : List IndexEntry) (query : Str)
    (hq : query ≠ []) :
    _search h cfg index query =
      (sortByScore ((index.filterMap (scoreEntry h (searchTerms h query))).take
        (cfg.maxResults * 2 + 1))).take cfg.maxResults := by
  have hl : ¬ query.length = 0 := by
    intro h0
    exact hq (List.length_eq_zero.mp h0)
  simp only [_search, hl, if_false, searchLoop_init]

theorem mem_search_of_ne_nil {h : Host} {cfg : SearchConfig} {index : List IndexEntry}
    {query : Str} {r : SearchResult} (hq : query ≠ []) (hr : r ∈ _search h cfg index query) :
    ∃ item ∈ index, scoreEntry h (searchTerms h query) item = some r := by
  rw [search_of_ne_nil h cfg index query hq] at hr
  have h1 := List.mem_of_mem_take hr
  rw [sortByScore, List.mem_insertionSort] at h1
  have h2 := List.mem_of_mem_take h1
  rw [List.mem_filterMap] at h2
  exact h2


/-! ## Sorting by score -/

instance : IsTotal SearchResult scoreGe := ⟨fun a b => Nat.le_total b.score a.score⟩

instance : IsTrans SearchResult scoreGe := ⟨fun _ _ _ hab hbc => Nat.le_trans hbc hab⟩

theorem sortByScore_sorted (l : List SearchResult) : List.Pairwise scoreGe (sortByScore l) :=
  List.sorted_insertionSort scoreGe l

theorem search_pairwise (h : Host) (cfg : SearchConfig) (index : List IndexEntry) (query : Str)
    (hq : query ≠ []) : List.Pairwise scoreGe (_search h cfg index query) := by
  rw [search_of_ne_nil h cfg index query hq]
  exact (sortByScore_sorted _).sublist (List.take_sublist _ _)

/-! ## The field score -/

theorem fieldMatches_eq (h : Host) (hl : h.toLowerCase [] = []) (field : Option Str) (term : Str)
    (ht : term ≠ []) :
    fieldMatches h field term = includes (h.toLowerCase (orEmpty field)) term := by
  cases field with
  | none => simp [fieldMatches, orEmpty, orElseEmpty, hl, includes_nil_left term ht]
  | some s =>
    cases s with
    | nil => simp [fieldMatches, orEmpty, orElseEmpty, hl, includes_nil_left term ht]
    | cons c s => simp [fieldMatches, orEmpty, orElseEmpty]

theorem tagsMatch_eq (h : Host) (tags : Option (List Str)) (term : Str) :
    tagsMatch h tags term = (tags.getD []).any (fun tag => includes (h.toLowerCase tag) term) := by
  cases tags <;> simp [tagsMatch]

theorem calculateMatch_score (h : Host) (hl : h.toLowerCase [] = []) (item : IndexEntry)
    (term : Str) (ht : term ≠ []) :
    (_calculateMatch h item term).score =
      if fieldScoreSpec h item term = 0 ∧ includes item.searchText term = true then 1
      else fieldScoreSpec h item term := by
  simp only [_calculateMatch, fieldScoreSpec, fieldMatches_eq h hl _ term ht, tagsMatch_eq]
  cases includes (h.toLowerCase (displayName h item.tool)) term <;>
  cases includes (h.toLowerCase (orEmpty item.tool.id)) term <;>
  cases includes (h.toLowerCase (orEmpty item.tool.category)) term <;>
  cases (item.tool.tags.getD []).any (fun tag => includes (h.toLowerCase tag) term) <;>
  cases includes (h.toLowerCase (displayDescription h item.tool)) term <;>
  cases includes item.searchText term <;>
  simp [ind]

theorem calculateMatch_highlights (h : Host) (item : IndexEntry) (term : Str) :
    (_calculateMatch h item term).highlights = highlightsSpec h item term := by
  simp only [_calculateMatch, highlightsSpec]
  cases includes (h.toLowerCase (displayName h item.tool)) term <;>
  cases includes (h.toLowerCase (displayDescription h item.tool)) term <;>
  simp

/-! ## Claims on `_search` and `_calculateMatch` -/

/-- C1: for a non-empty query, every result returned by `_search` carries the blob of an
index entry, and that blob contains, as a contiguous substring, one of the non-empty
pieces obtained by lowercasing the query and splitting it on white space. -/
theorem search_result_contains_term (h : Host) (cfg : SearchConfig) (index : List IndexEntry)
    (query : Str) (r : SearchResult) (hq : query ≠ []) (hr : r ∈ _search h cfg index query) :
    (∃ item ∈ index, item.searchText = r.searchText) ∧
      ∃ term ∈ splitWs (h.toLowerCase query), term ≠ [] ∧ term <:+: r.searchText := by
  obtain ⟨item, hi, hs⟩ := mem_search_of_ne_nil hq hr
  obtain ⟨hre, hany, _⟩ := scoreEntry_some hs
  have hblob : item.searchText = r.searchText := by rw [hre]; rfl
  refine ⟨⟨item, hi, hblob⟩, ?_⟩
  obtain ⟨term, hterm, hinc⟩ := List.any_eq_true.mp hany
  rw [searchTerms, List.mem_filter] at hterm
  refine ⟨term, hterm.1, ?_, ?_⟩
  · intro h0
    have := hterm.2
    simp [h0] at this
  · rw [← hblob]
    exact (includes_iff _ _).mp hinc

/-- Witness of C1: the query `Free  Zzz` on a two-tool catalogue returns the free tool,
whose blob contains the piece `free`. -/
theorem search_result_contains_term_witness :
    lit "Free  Zzz" ≠ [] ∧
      mkResult (buildEntry asciiHost (sampleTool (some (lit "free")) 1)) 45 [] ∈
        _search asciiHost searchConfig (_buildSearchIndex asciiHost (sampleTools 1))
          (lit "Free  Zzz") ∧
      (∃ item ∈ _buildSearchIndex asciiHost (sampleTools 1),
        item.searchText = lit "a b misc  free t001") ∧
      ∃ term ∈ splitWs (asciiHost.toLowerCase (lit "Free  Zzz")),
        term ≠ [] ∧ term <:+: lit "a b misc  free t001" :=
  ⟨by decide, by decide,
    search_result_contains_term asciiHost searchConfig
      (_buildSearchIndex asciiHost (sampleTools 1)) (lit "Free  Zzz")
      (mkResult (buildEntry asciiHost (sampleTool (some (lit "free")) 1)) 45 [])
      (by decide) (by decide)⟩

/-- C2: for a non-empty query, every result returned by `_search` is the copy of an index
entry whose score is the entry's static weight times the sum, over the query terms that
the entry's blob contains, of the score `_calculateMatch` gives that entry and term. -/
theorem search_score_is_weight_times_term_sum (h : Host) (cfg : SearchConfig)
    (index : List IndexEntry) (query : Str) (r : SearchResult) (hq : query ≠ [])
    (hr : r ∈ _search h cfg index query) :
    ∃ item ∈ index, r.id = item.id ∧ r.tool = item.tool ∧ r.searchText = item.searchText ∧
      r.weight = item.weight ∧
      r.score = item.weight *
        (((searchTerms h query).filter (fun term => includes item.searchText term)).map
          (fun term => (_calculateMatch h item term).score)).sum := by
  obtain ⟨item, hi, hs⟩ := mem_search_of_ne_nil hq hr
  obtain ⟨hre, _, _⟩ := scoreEntry_some hs
  refine ⟨item, hi, ?_, ?_, ?_, ?_, ?_⟩ <;> rw [hre]
  · rfl
  · rfl
  · rfl
  · rfl
  · exact Nat.mul_comm _ _

/-- Witness of C2: the free tool found by the query `Free  Zzz` has score 45 = 45 * 1. -/
theorem search_score_is_weight_times_term_sum_witness :
    lit "Free  Zzz" ≠ [] ∧
      ∃ item ∈ _buildSearchIndex asciiHost (sampleTools 1),
        (some (lit "t001") : Option Str) = item.id ∧
        sampleTool (some (lit "free")) 1 = item.tool ∧
        lit "a b misc  free t001" = item.searchText ∧ 45 = item.weight ∧
        45 = item.weight *
          (((searchTerms asciiHost (lit "Free  Zzz")).filter
              (fun term => includes item.searchText term)).map
            (fun term => (_calculateMatch asciiHost item term).score)).sum :=
  ⟨by decide,
    search_score_is_weight_times_term_sum asciiHost searchConfig
      (_buildSearchIndex asciiHost (sampleTools 1)) (lit "Free  Zzz")
      (mkResult (buildEntry asciiHost (sampleTool (some (lit "free")) 1)) 45 [])
      (by decide) (by decide)⟩

/-- C3: for a non-empty term (and a lowercase conversion that keeps the empty string
empty), the score of `_calculateMatch` is 10 for a name match + 8 for an id match + 6 for
a category match + 4 for a match of at least one tag (once) + 2 for a description
match, it is 1 when that sum is 0 and the blob contains the term, and the highlights
are (name, term) when the name matched followed by (description, term) when the
description matched. -/
theorem calculateMatch_field_scores (h : Host) (item : IndexEntry) (term : Str)
    (hl : h.toLowerCase [] = []) (ht : term ≠ []) :
    (_calculateMatch h item term).score =
        (if fieldScoreSpec h item term = 0 ∧ includes item.searchText term = true then 1
         else fieldScoreSpec h item term) ∧
      (_calculateMatch h item term).highlights = highlightsSpec h item term :=
  ⟨calculateMatch_score h hl item term ht, calculateMatch_highlights h item term⟩

/-- Witness of C3: the term `a` against the sample tool matches the name only. -/
theorem calculateMatch_field_scores_witness :
    asciiHost.toLowerCase [] = [] ∧ lit "a" ≠ [] ∧
      (_calculateMatch asciiHost (buildEntry asciiHost (sampleTool none 0)) (lit "a")).score =
        (if fieldScoreSpec asciiHost (buildEntry asciiHost (sampleTool none 0)) (lit "a") = 0 ∧
            includes (buildEntry asciiHost (sampleTool none 0)).searchText (lit "a") = true
         then 1
         else fieldScoreSpec asciiHost (buildEntry asciiHost (sampleTool none 0)) (lit "a")) ∧
      (_calculateMatch asciiHost (buildEntry asciiHost (sampleTool none 0)) (lit "a")).highlights =
        highlightsSpec asciiHost (buildEntry asciiHost (sampleTool none 0)) (lit "a") :=
  ⟨by decide, by decide,
    calculateMatch_field_scores asciiHost (buildEntry asciiHost (sampleTool none 0)) (lit "a")
      (by decide) (by decide)⟩

/-- C4: for a non-empty query the list returned by `_search` is sorted by score in
non-increasing order: of two adjacent results the earlier one has a score greater than
or equal to the later one. -/
theorem search_sorted_by_score (h : Host) (cfg : SearchConfig) (index : List IndexEntry)
    (query : Str) (hq : query ≠ []) :
    List.Chain' (fun a b : SearchResult => a.score ≥ b.score) (_search h cfg index query) :=
  (search_pairwise h cfg index query hq).chain'

/-- Witness of C4: the query `a` on a three-tool catalogue. -/
theorem search_sorted_by_score_witness :
    lit "a" ≠ [] ∧
      List.Chain' (fun a b : SearchResult => a.score ≥ b.score)
        (_search asciiHost searchConfig (_buildSearchIndex asciiHost (sampleTools 2)) (lit "a")) :=
  ⟨by decide,
    search_sorted_by_score asciiHost searchConfig (_buildSearchIndex asciiHost (sampleTools 2))
      (lit "a") (by decide)⟩

/-- C7: with the empty query `_search` returns one result per index entry, in index
order, none excluded: the copy of the entry with score equal to the entry's static weight
and an empty highlight list. -/
theorem search_empty_query (h : Host) (cfg : SearchConfig) (index : List IndexEntry) :
    List.Forall₂
      (fun (item : IndexEntry) (r : SearchResult) =>
        r.id = item.id ∧ r.tool = item.tool ∧ r.searchText = item.searchText ∧
          r.weight = item.weight ∧ r.score = item.weight ∧ r.highlights = [])
      index (_search h cfg index []) := by
  have hs : _search h cfg index [] = index.map (fun item => mkResult item item.weight []) := by
    simp [_search]
  rw [hs, List.forall₂_map_right_iff]
  exact List.forall₂_same.mpr (fun item _ => ⟨rfl, rfl, rfl, rfl, rfl, rfl⟩)


/-! ## Truncation -/

theorem pairwise_take_drop {l : List SearchResult} (hl : List.Pairwise scoreGe l) (n : Nat)
    {r x : SearchResult} (hr : r ∈ l.take n) (hx : x ∈ l.drop n) : x.score ≤ r.score := by
  have hsplit : List.Pairwise scoreGe (l.take n ++ l.drop n) := by
    rw [List.take_append_drop]
    exact hl
  exact (List.pairwise_append.mp hsplit).2.2 r hr x hx

theorem mem_take_or_drop {l : List SearchResult} (n : Nat) {x : SearchResult} (hx : x ∈ l) :
    x ∈ l.take n ∨ x ∈ l.drop n := by
  rw [← List.take_append_drop n l] at hx
  exact List.mem_append.mp hx

/-- C5 (amended): for a non-empty query, `_search` returns the first `maxResults` elements
of the stable descending-score sort of the results collected by the loop, which are the
first `2 * maxResults + 1` matching entries in index order.  No collected result that is
absent from the returned list has a strictly higher score than a returned one; and
when at most `2 * maxResults + 1` index entries match, this holds for every matching
entry of the index. -/
theorem search_top_of_collected (h : Host) (cfg : SearchConfig) (index : List IndexEntry)
    (query : Str) (hq : query ≠ []) :
    _search h cfg index query =
        (sortByScore ((index.filterMap (scoreEntry h (searchTerms h query))).take
          (cfg.maxResults * 2 + 1))).take cfg.maxResults ∧
      (∀ x ∈ (index.filterMap (scoreEntry h (searchTerms h query))).take
          (cfg.maxResults * 2 + 1),
        x ∉ _search h cfg index query → ∀ r ∈ _search h cfg index query, x.score ≤ r.score) ∧
      ((index.filterMap (scoreEntry h (searchTerms h query))).length ≤ cfg.maxResults * 2 + 1 →
        ∀ item ∈ index, ∀ x, scoreEntry h (searchTerms h query) item = some x →
          x ∉ _search h cfg index query → ∀ r ∈ _search h cfg index query, x.score ≤ r.score) := by
  have hs := search_of_ne_nil h cfg index query hq
  have key : ∀ x ∈ (index.filterMap (scoreEntry h (searchTerms h query))).take
      (cfg.maxResults * 2 + 1),
      x ∉ _search h cfg index query → ∀ r ∈ _search h cfg index query, x.score ≤ r.score := by
    intro x hx hnot r hr
    rw [hs] at hnot hr
    have hx1 : x ∈ sortByScore ((index.filterMap (scoreEntry h (searchTerms h query))).take
        (cfg.maxResults * 2 + 1)) := by
      rw [sortByScore, List.mem_insertionSort]
      exact hx
    rcases mem_take_or_drop cfg.maxResults hx1 with h1 | h1
    · exact absurd h1 hnot
    · exact pairwise_take_drop (sortByScore_sorted _) cfg.maxResults hr h1
  refine ⟨hs, key, ?_⟩
  intro hlen item hi x hx
  apply key
  rw [List.take_of_length_le hlen, List.mem_filterMap]
  exact ⟨item, hi, hx⟩

/-- Witness of C5 (amended): the query `a` on a three-tool catalogue. -/
theorem search_top_of_collected_witness :
    lit "a" ≠ [] ∧
      _search asciiHost searchConfig (_buildSearchIndex asciiHost (sampleTools 2)) (lit "a") =
        (sortByScore (((_buildSearchIndex asciiHost (sampleTools 2)).filterMap
          (scoreEntry asciiHost (searchTerms asciiHost (lit "a")))).take
            (searchConfig.maxResults * 2 + 1))).take searchConfig.maxResults :=
  ⟨by decide,
    (search_top_of_collected asciiHost searchConfig (_buildSearchIndex asciiHost (sampleTools 2))
      (lit "a") (by decide)).1⟩

set_option maxRecDepth 1000000 in
/-- C5 (counterexample): in a catalogue of 202 tools that all match the query `a`, the
last tool matches with final score 450 and is absent from the list returned by `_search`,
which holds a result of score 200. -/
theorem search_top_counterexample :
    ∃ item ∈ _buildSearchIndex asciiHost (sampleTools 201),
      ∃ x, scoreEntry asciiHost (searchTerms asciiHost (lit "a")) item = some x ∧
        x ∉ _search asciiHost searchConfig (_buildSearchIndex asciiHost (sampleTools 201))
          (lit "a") ∧
        ∃ r ∈ _search asciiHost searchConfig (_buildSearchIndex asciiHost (sampleTools 201))
          (lit "a"), r.score < x.score := by
  refine ⟨buildEntry asciiHost (sampleTool (some (lit "free")) 201), ?_,
    mkResult (buildEntry asciiHost (sampleTool (some (lit "free")) 201)) 450
      [⟨lit "name", lit "a"⟩], ?_, ?_, ?_⟩
  · simp [_buildSearchIndex, sampleTools]
  · decide
  · decide
  · decide

/-! ## The result cap -/

/-- C6 (amended): for a non-empty query `_search` returns at most `maxResults` results,
and for the empty query it returns as many results as the index has entries. -/
theorem search_length_le (h : Host) (cfg : SearchConfig) (index : List IndexEntry)
    (query : Str) (hq : query ≠ []) :
    (_search h cfg index query).length ≤ cfg.maxResults ∧
      (_search h cfg index []).length = index.length := by
  constructor
  · rw [search_of_ne_nil h cfg index query hq, List.length_take]
    exact Nat.min_le_left _ _
  · simp [_search]

/-- Witness of C6 (amended): the query `a` on the catalogue of 202 tools. -/
theorem search_length_le_witness :
    lit "a" ≠ [] ∧
      (_search asciiHost searchConfig (_buildSearchIndex asciiHost (sampleTools 201))
          (lit "a")).length ≤ searchConfig.maxResults ∧
      (_search asciiHost searchConfig (_buildSearchIndex asciiHost (sampleTools 201)) []).length =
        (_buildSearchIndex asciiHost (sampleTools 201)).length :=
  ⟨by decide,
    search_length_le asciiHost searchConfig (_buildSearchIndex asciiHost (sampleTools 201))
      (lit "a") (by decide)⟩

set_option maxRecDepth 100000 in
/-- C6 (counterexample): on a catalogue of 101 tools the empty query returns 101 results,
more than `maxResults = 100`. -/
theorem search_length_counterexample :
    (_buildSearchIndex asciiHost (sampleTools 100)).length = 101 ∧
      searchConfig.maxResults = 100 ∧
      ¬ (_search asciiHost searchConfig (_buildSearchIndex asciiHost (sampleTools 100)) []).length ≤
        searchConfig.maxResults := by
  simp [_search, _buildSearchIndex, sampleTools, searchConfig]

/-! ## A query made of white space -/

/-- C8 (the code at the failing input): the `search` URL parameter made of one space is
empty after trimming, is passed on untrimmed, and `_search` returns no result for it
although the index has two entries. -/
theorem search_whitespace_query_returns_nothing :
    trim (lit " ") = [] ∧
      (_buildSearchIndex asciiHost (sampleTools 1)).length = 2 ∧
      handleURLSearchParam asciiHost searchConfig (_buildSearchIndex asciiHost (sampleTools 1))
        (some (lit " ")) = some [] ∧
      _search asciiHost searchConfig (_buildSearchIndex asciiHost (sampleTools 1)) (lit " ") = [] := by
  decide


/-! ## Positive scores -/

theorem calculateWeight_ge (h : Host) (tool : ToolRecord) : 20 ≤ _calculateWeight h tool := by
  unfold _calculateWeight
  omega

theorem weight_ge_of_mem_buildSearchIndex {h : Host} {tools : List ToolRecord} {item : IndexEntry}
    (hi : item ∈ _buildSearchIndex h tools) : 20 ≤ item.weight := by
  rw [_buildSearchIndex, List.mem_map] at hi
  obtain ⟨tool, _, rfl⟩ := hi
  exact calculateWeight_ge h tool

/-- Numeric reading of the weight (the value of the source for category ids that name no
inherited member): for a non-empty query on the index built from a catalogue, every
result returned by `_search` comes from an index entry whose summed per-term score is positive, and its
final score, that sum times the static weight, is positive too. -/
theorem search_result_score_pos (h : Host) (cfg : SearchConfig) (tools : List ToolRecord)
    (query : Str) (r : SearchResult) (hq : query ≠ [])
    (hr : r ∈ _search h cfg (_buildSearchIndex h tools) query) :
    ∃ item ∈ _buildSearchIndex h tools, r.tool = item.tool ∧
      0 < (((searchTerms h query).filter (fun term => includes item.searchText term)).map
          (fun term => (_calculateMatch h item term).score)).sum ∧
      r.score = (((searchTerms h query).filter (fun term => includes item.searchText term)).map
          (fun term => (_calculateMatch h item term).score)).sum * item.weight ∧
      0 < r.score := by
  obtain ⟨item, hi, hs⟩ := mem_search_of_ne_nil hq hr
  obtain ⟨hre, _, hpos⟩ := scoreEntry_some hs
  have hw := weight_ge_of_mem_buildSearchIndex hi
  have hscore : r.score = termScoreSum h (searchTerms h query) item * item.weight := by
    rw [hre]; rfl
  refine ⟨item, hi, by rw [hre]; rfl, hpos, hscore, ?_⟩
  rw [hscore]
  exact Nat.mul_pos hpos (by omega)

/-- Example: the free tool found by the query `Free  Zzz`. -/
theorem search_result_score_pos_witness :
    lit "Free  Zzz" ≠ [] ∧
      ∃ item ∈ _buildSearchIndex asciiHost (sampleTools 1),
        sampleTool (some (lit "free")) 1 = item.tool ∧
        0 < (((searchTerms asciiHost (lit "Free  Zzz")).filter
              (fun term => includes item.searchText term)).map
            (fun term => (_calculateMatch asciiHost item term).score)).sum ∧
        45 = (((searchTerms asciiHost (lit "Free  Zzz")).filter
              (fun term => includes item.searchText term)).map
            (fun term => (_calculateMatch asciiHost item term).score)).sum * item.weight ∧
        0 < 45 :=
  ⟨by decide,
    search_result_score_pos asciiHost searchConfig (sampleTools 1) (lit "Free  Zzz")
      (mkResult (buildEntry asciiHost (sampleTool (some (lit "free")) 1)) 45 [])
      (by decide) (by decide)⟩

/-! ## Name match against description match -/

theorem fieldMatches_imp (h : Host) (field : Option Str) (term : Str)
    (hf : fieldMatches h field term = true) :
    includes (h.toLowerCase (orEmpty field)) term = true := by
  cases field with
  | none => simp [fieldMatches] at hf
  | some s =>
    cases s with
    | nil => simp [fieldMatches] at hf
    | cons c s => simpa [fieldMatches, orEmpty, orElseEmpty] using hf

theorem calculateMatch_score_ge_of_name (h : Host) (item : IndexEntry) (term : Str)
    (hn : includes (h.toLowerCase (displayName h item.tool)) term = true) :
    10 ≤ (_calculateMatch h item term).score := by
  simp only [_calculateMatch, hn, if_true]
  split_ifs <;> omega

theorem calculateMatch_score_of_description_only (h : Host) (item : IndexEntry) (term : Str)
    (hn : includes (h.toLowerCase (displayName h item.tool)) term = false)
    (hid : includes (h.toLowerCase (orEmpty item.tool.id)) term = false)
    (hcat : includes (h.toLowerCase (orEmpty item.tool.category)) term = false)
    (htags : (item.tool.tags.getD []).any (fun tag => includes (h.toLowerCase tag) term) = false)
    (hd : includes (h.toLowerCase (displayDescription h item.tool)) term = true) :
    (_calculateMatch h item term).score = 2 := by
  have h1 : fieldMatches h item.tool.id term = false := by
    cases hf : fieldMatches h item.tool.id term with
    | false => rfl
    | true => rw [fieldMatches_imp h _ _ hf] at hid; cases hid
  have h2 : fieldMatches h item.tool.category term = false := by
    cases hf : fieldMatches h item.tool.category term with
    | false => rfl
    | true => rw [fieldMatches_imp h _ _ hf] at hcat; cases hcat
  have h3 : tagsMatch h item.tool.tags term = false := by
    rw [tagsMatch_eq]; exact htags
  simp [_calculateMatch, hn, h1, h2, h3, hd]

theorem termScoreSum_single (h : Host) (item : IndexEntry) (term : Str)
    (hb : includes item.searchText term = true) :
    termScoreSum h [term] item = (_calculateMatch h item term).score := by
  simp [termScoreSum, hb]

theorem sublist_pair_of_pairwise {l : List SearchResult} (hl : List.Pairwise scoreGe l)
    {a b : SearchResult} (ha : a ∈ l) (hb : b ∈ l) (hlt : b.score < a.score) :
    List.Sublist [a, b] l := by
  induction l with
  | nil => cases ha
  | cons x xs ih =>
    rw [List.pairwise_cons] at hl
    rcases List.mem_cons.mp ha with rfl | ha1
    · rcases List.mem_cons.mp hb with rfl | hb1
      · exact absurd hlt (Nat.lt_irrefl _)
      · exact List.Sublist.cons₂ _ (List.singleton_sublist.mpr hb1)
    · rcases List.mem_cons.mp hb with rfl | hb1
      · have : a.score ≤ b.score := hl.1 a ha1
        omega
      · exact List.Sublist.cons _ (ih hl.2 ha1 hb1)

/-- Numeric reading of the weight (the value of the source for category ids that name no
inherited member): for a single-term query `t` on the index built from a catalogue, if results
`rA` and `rB` are both returned, have equal static weight, `t` occurs in the lowercased
name of `rA`, and `t` occurs in the lowercased description of `rB` but not in its name,
id, category or any tag, then the score of `rA` is strictly greater than the score of
`rB` and `rA` stands before `rB` in the returned list. -/
theorem name_match_outranks_description_match (h : Host) (cfg : SearchConfig)
    (tools : List ToolRecord) (query t : Str) (rA rB : SearchResult)
    (hq : query ≠ []) (hterms : searchTerms h query = [t])
    (hA : rA ∈ _search h cfg (_buildSearchIndex h tools) query)
    (hB : rB ∈ _search h cfg (_buildSearchIndex h tools) query)
    (hw : rA.weight = rB.weight)
    (hAname : includes (h.toLowerCase (displayName h rA.tool)) t = true)
    (hBdesc : includes (h.toLowerCase (displayDescription h rB.tool)) t = true)
    (hBname : includes (h.toLowerCase (displayName h rB.tool)) t = false)
    (hBid : includes (h.toLowerCase (orEmpty rB.tool.id)) t = false)
    (hBcat : includes (h.toLowerCase (orEmpty rB.tool.category)) t = false)
    (hBtags : (rB.tool.tags.getD []).any (fun tag => includes (h.toLowerCase tag) t) = false) :
    rB.score < rA.score ∧
      List.Sublist [rA, rB] (_search h cfg (_buildSearchIndex h tools) query) := by
  obtain ⟨iA, hiA, hsA⟩ := mem_search_of_ne_nil hq hA
  obtain ⟨iB, hiB, hsB⟩ := mem_search_of_ne_nil hq hB
  rw [hterms] at hsA hsB
  obtain ⟨hreA, hanyA, _⟩ := scoreEntry_some hsA
  obtain ⟨hreB, hanyB, _⟩ := scoreEntry_some hsB
  have hblobA : includes iA.searchText t = true := by simpa using hanyA
  have hblobB : includes iB.searchText t = true := by simpa using hanyB
  have htoolA : rA.tool = iA.tool := by rw [hreA]; rfl
  have htoolB : rB.tool = iB.tool := by rw [hreB]; rfl
  have hwA : rA.weight = iA.weight := by rw [hreA]; rfl
  have hwB : rB.weight = iB.weight := by rw [hreB]; rfl
  have hscA : rA.score = (_calculateMatch h iA t).score * iA.weight := by
    rw [← termScoreSum_single h iA t hblobA, hreA]; rfl
  have hscB : rB.score = (_calculateMatch h iB t).score * iB.weight := by
    rw [← termScoreSum_single h iB t hblobB, hreB]; rfl
  rw [htoolA] at hAname
  rw [htoolB] at hBdesc hBname hBid hBcat hBtags
  have h10 := calculateMatch_score_ge_of_name h iA t hAname
  have h2 := calculateMatch_score_of_description_only h iB t hBname hBid hBcat hBtags hBdesc
  have hpos := weight_ge_of_mem_buildSearchIndex hiA
  have hweq : iB.weight = iA.weight := by rw [← hwA, ← hwB, hw]
  have hlt : rB.score < rA.score := by
    rw [hscA, hscB, h2, hweq]
    calc 2 * iA.weight < 10 * iA.weight := by omega
      _ ≤ (_calculateMatch h iA t).score * iA.weight := Nat.mul_le_mul_right _ h10
  exact ⟨hlt, sublist_pair_of_pairwise (search_pairwise h cfg _ query hq) hA hB hlt⟩

/-- Example: the query `ChatGPT` ranks the tool named `ChatGPT Plus` (10 * 50 = 500)
before the tool that mentions `chatgpt` in its description (2 * 50 = 100). -/
theorem name_match_outranks_description_match_witness :
    searchTerms asciiHost (lit "ChatGPT") = [lit "chatgpt"] ∧
      (mkResult (buildEntry asciiHost toolNamed) 500 [⟨lit "name", lit "chatgpt"⟩]).weight = 50 ∧
      (mkResult (buildEntry asciiHost toolMentioning) 100
        [⟨lit "description", lit "chatgpt"⟩]).weight = 50 ∧
      (100 < 500 ∧
        List.Sublist
          [mkResult (buildEntry asciiHost toolNamed) 500 [⟨lit "name", lit "chatgpt"⟩],
           mkResult (buildEntry asciiHost toolMentioning) 100
            [⟨lit "description", lit "chatgpt"⟩]]
          (_search asciiHost searchConfig
            (_buildSearchIndex asciiHost [toolMentioning, toolNamed]) (lit "ChatGPT"))) :=
  ⟨by decide, by decide, by decide,
    name_match_outranks_description_match asciiHost searchConfig [toolMentioning, toolNamed]
      (lit "ChatGPT") (lit "chatgpt")
      (mkResult (buildEntry asciiHost toolNamed) 500 [⟨lit "name", lit "chatgpt"⟩])
      (mkResult (buildEntry asciiHost toolMentioning) 100 [⟨lit "description", lit "chatgpt"⟩])
      (by decide) (by decide) (by decide) (by decide) (by decide) (by decide) (by decide)
      (by decide) (by decide) (by decide) (by decide)⟩

/-! ## A query that matches nothing -/

theorem scoreEntry_none_of_no_match (h : Host) (terms : List Str) (item : IndexEntry)
    (hno : ∀ term ∈ terms, includes item.searchText term = false) :
    scoreEntry h terms item = none := by
  have hany : terms.any (fun term => includes item.searchText term) = false := by
    rw [List.any_eq_false]
    intro term ht
    simp [hno term ht]
  simp [scoreEntry, scoreItem_hasMatch, hany]

theorem filterMap_scoreEntry_nil (h : Host) (terms : List Str) (index : List IndexEntry)
    (hno : ∀ item ∈ index, ∀ term ∈ terms, includes item.searchText term = false) :
    index.filterMap (scoreEntry h terms) = [] := by
  induction index with
  | nil => rfl
  | cons item rest ih =>
    rw [List.filterMap_cons,
      scoreEntry_none_of_no_match h terms item (hno item (List.mem_cons_self _ _))]
    exact ih (fun i hi => hno i (List.mem_cons_of_mem _ hi))

/-- C11: for a non-empty query none of whose terms occurs in the blob of any index entry,
`_search` returns the empty list (the function is total: it returns a list on every
input). -/
theorem search_no_match_returns_empty (h : Host) (cfg : SearchConfig) (index : List IndexEntry)
    (query : Str) (hq : query ≠ [])
    (hno : ∀ item ∈ index, ∀ term ∈ searchTerms h query, includes item.searchText term = false) :
    _search h cfg index query = [] := by
  rw [search_of_ne_nil h cfg index query hq, filterMap_scoreEntry_nil h _ index hno]
  simp [sortByScore]

/-- Witness of C11: the query `zzz` on a two-tool catalogue. -/
theorem search_no_match_returns_empty_witness :
    lit "zzz" ≠ [] ∧ searchTerms asciiHost (lit "zzz") = [lit "zzz"] ∧
      _search asciiHost searchConfig (_buildSearchIndex asciiHost (sampleTools 1)) (lit "zzz") = [] :=
  ⟨by decide, by decide,
    search_no_match_returns_empty asciiHost searchConfig
      (_buildSearchIndex asciiHost (sampleTools 1)) (lit "zzz") (by decide) (by decide)⟩

/-! ## The static weight -/

theorem foldl_keyword (text : Str) (keywords : List Str) (bonus : Nat) :
    keywords.foldl (fun bonus keyword => if includes text keyword then bonus + 5 else bonus) bonus =
      bonus + 5 * (keywords.filter (fun keyword => includes text keyword)).length := by
  induction keywords generalizing bonus with
  | nil => simp
  | cons k ks ih =>
    rw [List.foldl_cons, ih]
    by_cases hk : includes text k = true
    · simp [hk, List.filter_cons]; omega
    · simp [hk, List.filter_cons]

theorem keywordBonus_eq (h : Host) (tool : ToolRecord) :
    keywordBonus h tool =
      5 * (hotKeywords.filter (fun keyword => includes (toolNameLower h tool) keyword)).length := by
  simp only [keywordBonus, toolNameLower]
  rw [foldl_keyword]
  omega

theorem orEmpty_eq (a : Option Str) : orEmpty a = a.getD [] := by
  cases a with
  | none => rfl
  | some s => cases s <;> rfl

theorem domainBonus_eq (url : Option Str) :
    domainBonus url =
      if premiumTools.any (fun domain => includes (orEmpty url) domain) then 40
      else if popularTools.any (fun domain => includes (orEmpty url) domain) then 20
      else 0 := by
  cases url with
  | none => decide
  | some s =>
    cases s with
    | nil => decide
    | cons c s => simp [domainBonus, orEmpty, orElseEmpty]

theorem categoryBonus_eq (category : Option Str) :
    categoryBonus category = (categoryWeights.lookup (orEmpty category)).getD 0 := by
  cases category with
  | none => decide
  | some s =>
    cases s with
    | nil => decide
    | cons c s => simp [categoryBonus, orEmpty, orElseEmpty]

theorem selfHostedBonus_eq (url : Option Str) :
    selfHostedBonus url = if startsWith (orEmpty url) (lit "/") then 30 else 0 := by
  cases url with
  | none => decide
  | some s =>
    cases s with
    | nil => decide
    | cons c s => simp [selfHostedBonus, orEmpty, orElseEmpty]

theorem lookup_categoryWeights_none (c : Str)
    (hc : c ∉ [lit "chat", lit "creative", lit "search", lit "office", lit "coding"]) :
    categoryWeights.lookup c = none := by
  simp only [List.mem_cons, List.mem_singleton, not_or, List.not_mem_nil, or_false] at hc
  obtain ⟨h1, h2, h3, h4, h5⟩ := hc
  have e1 : (c == lit "chat") = false := by simpa using h1
  have e2 : (c == lit "creative") = false := by simpa using h2
  have e3 : (c == lit "search") = false := by simpa using h3
  have e4 : (c == lit "office") = false := by simpa using h4
  have e5 : (c == lit "coding") = false := by simpa using h5
  simp only [categoryWeights, List.lookup, e1, e2, e3, e4, e5]

/-- Numeric reading of the weight (the value of the source for category ids that name no
inherited member, see `weightValue_of_plain_category`): for a tool in whose scanned names
no hype keyword occurs, `_calculateWeight` is
20 + the pricing bonus (free 25, freemium 15, paid 10, else 0) + the domain bonus (40 for
a premium domain in the URL, otherwise 20 for a popular domain, otherwise 0) + the
category bonus (chat 15, creative 12, search 10, office 8, coding 10, and 0 for a category
id outside the table) + 30 when the URL starts with `/`; an absent URL or category
counts as the empty string. -/
theorem calculateWeight_of_no_keyword (h : Host) (tool : ToolRecord)
    (hk : ∀ keyword ∈ hotKeywords, includes (toolNameLower h tool) keyword = false) :
    _calculateWeight h tool =
        20 +
        (if tool.pricing = some (lit "free") then 25
         else if tool.pricing = some (lit "freemium") then 15
         else if tool.pricing = some (lit "paid") then 10 else 0) +
        (if premiumTools.any (fun domain => includes (orEmpty tool.url) domain) then 40
         else if popularTools.any (fun domain => includes (orEmpty tool.url) domain) then 20
         else 0) +
        (categoryWeights.lookup (orEmpty tool.category)).getD 0 +
        (if startsWith (orEmpty tool.url) (lit "/") then 30 else 0) ∧
      categoryWeights.lookup (lit "chat") = some 15 ∧
      categoryWeights.lookup (lit "creative") = some 12 ∧
      categoryWeights.lookup (lit "search") = some 10 ∧
      categoryWeights.lookup (lit "office") = some 8 ∧
      categoryWeights.lookup (lit "coding") = some 10 ∧
      ∀ c, c ∉ [lit "chat", lit "creative", lit "search", lit "office", lit "coding"] →
        (categoryWeights.lookup c).getD 0 = 0 := by
  refine ⟨?_, by decide, by decide, by decide, by decide, by decide, ?_⟩
  · have hf : hotKeywords.filter (fun keyword => includes (toolNameLower h tool) keyword) = [] := by
      rw [List.filter_eq_nil_iff]
      intro k hkm
      simp [hk k hkm]
    have hkb : keywordBonus h tool = 0 := by rw [keywordBonus_eq, hf]; rfl
    rw [_calculateWeight, hkb, domainBonus_eq, categoryBonus_eq, selfHostedBonus_eq]
    simp only [pricingBonus]
    omega
  · intro c hc
    rw [lookup_categoryWeights_none c hc]
    rfl

/-- Example: a free tool of category `chat` on a premium domain weighs
20 + 25 + 40 + 15. -/
theorem calculateWeight_of_no_keyword_witness :
    (∀ keyword ∈ hotKeywords, includes (toolNameLower asciiHost toolOnGithub) keyword = false) ∧
      _calculateWeight asciiHost toolOnGithub = 20 + 25 + 40 + 15 + 0 :=
  ⟨by decide,
    ((calculateWeight_of_no_keyword asciiHost toolOnGithub (by decide)).1).trans (by decide)⟩

/-- C13 (amended): the keyword part of `_calculateWeight` is min(25, 5 * k), where k is the
number of hype keywords that occur in the lowercased text `name.zh + ' ' + name.en` (an
absent name reads `undefined`); names in other languages are not scanned. -/
theorem keyword_part_of_calculateWeight (h : Host) (tool : ToolRecord) :
    min (keywordBonus h tool) 25 =
        min 25 (5 * (hotKeywords.filter
          (fun keyword => includes (toolNameLower h tool) keyword)).length) ∧
      _calculateWeight h tool =
        20 + pricingBonus tool.pricing + domainBonus tool.url +
          min 25 (5 * (hotKeywords.filter
            (fun keyword => includes (toolNameLower h tool) keyword)).length) +
          categoryBonus tool.category + selfHostedBonus tool.url := by
  have hk := keywordBonus_eq h tool
  constructor
  · rw [hk, Nat.min_comm]
  · rw [_calculateWeight, hk, Nat.min_comm]

/-- C13 (counterexample): a tool named `Asistente Claude` in Spanish has one hype keyword
in the concatenation of its names in all languages, yet the keyword part of its weight is
0, not 5. -/
theorem keyword_part_counterexample :
    keywordCountSpec asciiHost toolSpanish = 1 ∧
      min (keywordBonus asciiHost toolSpanish) 25 = 0 ∧
      min (keywordBonus asciiHost toolSpanish) 25 ≠
        min 25 (5 * keywordCountSpec asciiHost toolSpanish) := by
  decide

/-! ## The search blob -/

theorem orElseEmpty_lookup (m : List (Str × Str)) (lang : Str) :
    orElseEmpty (m.lookup lang) (m.lookup (lit "en")) = pickNonEmpty m lang := by
  unfold pickNonEmpty orElseEmpty
  cases m.lookup lang with
  | none => cases m.lookup (lit "en") with
    | none => rfl
    | some e => cases e <;> rfl
  | some s =>
    cases s with
    | nil => cases m.lookup (lit "en") with
      | none => rfl
      | some e => cases e <;> rfl
    | cons c s => simp

theorem pickNonEmpty_eq_pickPresent (m : List (Str × Str)) (lang : Str)
    (hne : m.lookup lang ≠ some []) : pickNonEmpty m lang = pickPresent m lang := by
  unfold pickNonEmpty pickPresent
  cases hl : m.lookup lang with
  | none => simp
  | some s =>
    cases s with
    | nil => exact absurd hl hne
    | cons c s => simp

theorem buildEntry_searchText (h : Host) (tool : ToolRecord) :
    (buildEntry h tool).searchText =
      trim (h.toLowerCase (join (lit " ")
        [pickNonEmpty tool.name (currentLang h), pickNonEmpty tool.description (currentLang h),
         tool.category.getD [], join (lit " ") (tool.tags.getD []), tool.pricing.getD [],
         tool.id.getD []])) := by
  simp only [buildEntry, searchTexts, displayName, displayDescription, orElseEmpty_lookup,
    orEmpty_eq]

/-- C14 (amended): the search blob built by `_buildSearchIndex` for a tool is
trim(lowercase(join with single spaces of [N, D, category id, tags joined by a space,
pricing, id])), where N is name[L] when that entry is present and not empty, else
name.en when present, else the empty string, and D is chosen from the description in
the same way; it is the blob of the specification whenever neither name[L] nor
description[L] is present and empty. -/
theorem buildSearchIndex_searchText (h : Host) (tools : List ToolRecord) :
    (_buildSearchIndex h tools).map IndexEntry.searchText =
        tools.map (fun tool =>
          trim (h.toLowerCase (join (lit " ")
            [pickNonEmpty tool.name (currentLang h),
             pickNonEmpty tool.description (currentLang h),
             tool.category.getD [], join (lit " ") (tool.tags.getD []), tool.pricing.getD [],
             tool.id.getD []]))) ∧
      ∀ tool ∈ tools, tool.name.lookup (currentLang h) ≠ some [] →
        tool.description.lookup (currentLang h) ≠ some [] →
        (buildEntry h tool).searchText = searchBlobSpec h tool := by
  constructor
  · rw [_buildSearchIndex, List.map_map]
    apply List.map_congr_left
    intro tool _
    exact buildEntry_searchText h tool
  · intro tool _ hn hd
    rw [buildEntry_searchText, searchBlobSpec, pickNonEmpty_eq_pickPresent _ _ hn,
      pickNonEmpty_eq_pickPresent _ _ hd]

/-- Witness of C14 (amended): the sample tool, whose `zh` name and description are not
empty. -/
theorem buildSearchIndex_searchText_witness :
    (sampleTool none 0).name.lookup (currentLang asciiHost) ≠ some [] ∧
      (sampleTool none 0).description.lookup (currentLang asciiHost) ≠ some [] ∧
      (buildEntry asciiHost (sampleTool none 0)).searchText =
        searchBlobSpec asciiHost (sampleTool none 0) :=
  ⟨by decide, by decide,
    (buildSearchIndex_searchText asciiHost [sampleTool none 0]).2 (sampleTool none 0)
      (by decide) (by decide) (by decide)⟩

/-- C14 (counterexample): for a tool whose `zh` name is present and empty the blob starts
with the English name `helper`, while the blob of the specification starts with the
(empty) `zh` name. -/
theorem buildSearchIndex_searchText_counterexample :
    toolEmptyName.name.lookup (currentLang asciiHost) = some [] ∧
      (buildEntry asciiHost toolEmptyName).searchText =
        lit "helper zhushou chat assistant free free helper" ∧
      searchBlobSpec asciiHost toolEmptyName = lit "zhushou chat assistant free free helper" ∧
      (_buildSearchIndex asciiHost [toolEmptyName]).map IndexEntry.searchText ≠
        [searchBlobSpec asciiHost toolEmptyName] := by
  decide

/-! ## One index entry per tool -/

/-- C15: `_buildSearchIndex` produces one index entry per tool, in the order of the tool
list, the i-th entry referring to the i-th tool and carrying its id; when the tool ids
are pairwise distinct so are the entry ids, and the id of every entry is the id of a
tool of the catalogue. -/
theorem buildSearchIndex_entries (h : Host) (tools : List ToolRecord) :
    List.Forall₂ (fun (tool : ToolRecord) (item : IndexEntry) =>
        item.tool = tool ∧ item.id = tool.id) tools (_buildSearchIndex h tools) ∧
      ((tools.map ToolRecord.id).Nodup → ((_buildSearchIndex h tools).map IndexEntry.id).Nodup) ∧
      ∀ item ∈ _buildSearchIndex h tools, ∃ tool ∈ tools, item.id = tool.id ∧ item.tool = tool := by
  refine ⟨?_, ?_, ?_⟩
  · rw [_buildSearchIndex, List.forall₂_map_right_iff]
    exact List.forall₂_same.mpr (fun tool _ => ⟨rfl, rfl⟩)
  · intro hn
    have hm : (_buildSearchIndex h tools).map IndexEntry.id = tools.map ToolRecord.id := by
      rw [_buildSearchIndex, List.map_map]
      rfl
    rw [hm]
    exact hn
  · intro item hi
    rw [_buildSearchIndex, List.mem_map] at hi
    obtain ⟨tool, ht, rfl⟩ := hi
    exact ⟨tool, ht, rfl, rfl⟩

/-- Witness of C15: the two sample tools have distinct ids, and so have their entries. -/
theorem buildSearchIndex_entries_witness :
    ((sampleTools 1).map ToolRecord.id).Nodup ∧
      ((_buildSearchIndex asciiHost (sampleTools 1)).map IndexEntry.id).Nodup :=
  ⟨by decide, (buildSearchIndex_entries asciiHost (sampleTools 1)).2.1 (by decide)⟩

/-! ## Determinism -/

theorem calculateWeight_congr (h1 h2 : Host) (tool : ToolRecord)
    (hlower : h1.toLowerCase = h2.toLowerCase) :
    _calculateWeight h1 tool = _calculateWeight h2 tool := by
  simp only [_calculateWeight, keywordBonus, hlower]

theorem buildEntry_congr (h1 h2 : Host) (tool : ToolRecord)
    (hlower : h1.toLowerCase = h2.toLowerCase) (hlang : currentLang h1 = currentLang h2) :
    buildEntry h1 tool = buildEntry h2 tool := by
  simp only [buildEntry, searchTexts, displayName, displayDescription, hlower, hlang,
    calculateWeight_congr h1 h2 tool hlower]

/-- C16: the index builder and the static weight are deterministic and stateless.  Two
runs of `_buildSearchIndex` from any two states of the manager that hold the same tool
list, under the same language and lowercase conversion, store identical entries;
running it twice in a row changes nothing more; and `_calculateWeight` gives the same
number for the same tool whatever the language and the state. -/
theorem buildSearchIndex_deterministic (h1 h2 : Host) (s1 s2 : SearchManager)
    (hlower : h1.toLowerCase = h2.toLowerCase) (hlang : currentLang h1 = currentLang h2)
    (htools : s1.tools = s2.tools) :
    (rebuildIndex h1 s1).searchIndex = (rebuildIndex h2 s2).searchIndex ∧
      (rebuildIndex h1 s1).searchIndex = _buildSearchIndex h1 s1.tools ∧
      rebuildIndex h1 (rebuildIndex h1 s1) = rebuildIndex h1 s1 ∧
      ∀ (h3 : Host) (tool : ToolRecord), h3.toLowerCase = h1.toLowerCase →
        _calculateWeight h3 tool = _calculateWeight h1 tool := by
  refine ⟨?_, rfl, rfl, fun h3 tool h31 => calculateWeight_congr h3 h1 tool h31⟩
  simp only [rebuildIndex, _buildSearchIndex, htools]
  apply List.map_congr_left
  intro tool _
  exact buildEntry_congr h1 h2 tool hlower hlang

/-- Witness of C16: rebuilding the index after a search and a category change, and
under a host that reports the default language explicitly. -/
theorem buildSearchIndex_deterministic_witness :
    (rebuildIndex asciiHost (loaded (sampleTools 1) sampleCategories none none)).searchIndex =
      (rebuildIndex ⟨asciiLower, some (lit "zh")⟩
        (setCategory asciiHost searchConfig
          (onInput asciiHost searchConfig
            (init asciiHost searchConfig (sampleTools 1) sampleCategories none none) (lit "a"))
          (lit "chat"))).searchIndex :=
  (buildSearchIndex_deterministic asciiHost ⟨asciiLower, some (lit "zh")⟩
    (loaded (sampleTools 1) sampleCategories none none)
    (setCategory asciiHost searchConfig
      (onInput asciiHost searchConfig
        (init asciiHost searchConfig (sampleTools 1) sampleCategories none none) (lit "a"))
      (lit "chat"))
    rfl (by decide) (by decide)).1

/-! ## The selection state machine -/

theorem showCategoryTools_frame (h : Host) (s : SearchManager) :
    (_showCategoryTools h s).currentCategory = s.currentCategory ∧
      (_showCategoryTools h s).categories = s.categories ∧
      (_showCategoryTools h s).tools = s.tools ∧
      (_showCategoryTools h s).searchIndex = s.searchIndex ∧
      (_showCategoryTools h s).urlSearch = s.urlSearch ∧
      (_showCategoryTools h s).searchInput = s.searchInput := by
  unfold _showCategoryTools
  split <;> simp [_renderAllToolsByCategories]

theorem setCategory_currentCategory (h : Host) (cfg : SearchConfig) (s : SearchManager)
    (categoryId : Str) :
    (setCategory h cfg s categoryId).currentCategory = categoryId ∧
      (setCategory h cfg s categoryId).categories = s.categories := by
  cases hq : trim s.searchInput with
  | nil =>
    simp only [setCategory, hq]
    exact ⟨(showCategoryTools_frame h _).1, (showCategoryTools_frame h _).2.1⟩
  | cons c q =>
    simp only [setCategory, hq]
    exact ⟨rfl, rfl⟩

theorem onInput_currentCategory (h : Host) (cfg : SearchConfig) (s : SearchManager)
    (value : Str) :
    (onInput h cfg s value).currentCategory = s.currentCategory ∧
      (onInput h cfg s value).categories = s.categories := by
  unfold onInput
  split_ifs <;>
    simp [_performSearch, _clearSearch, (showCategoryTools_frame h _).1,
      (showCategoryTools_frame h _).2.1]

theorem onClearClick_currentCategory (h : Host) (s : SearchManager) :
    (onClearClick h s).currentCategory = s.currentCategory ∧
      (onClearClick h s).categories = s.categories := by
  simp [onClearClick, _clearSearch, (showCategoryTools_frame h _).1,
    (showCategoryTools_frame h _).2.1]

theorem run_valid (h : Host) (cfg : SearchConfig) (ops : List Op) :
    ∀ s : SearchManager, validCategory s.categories s.currentCategory = true →
      (∀ c, Op.setCategory c ∈ ops → validCategory s.categories c = true) →
      validCategory (run h cfg s ops).categories (run h cfg s ops).currentCategory = true ∧
        (run h cfg s ops).categories = s.categories := by
  induction ops with
  | nil => intro s hs _; exact ⟨hs, rfl⟩
  | cons op ops ih =>
    intro s hs hops
    have hstep : validCategory (step h cfg s op).categories (step h cfg s op).currentCategory = true ∧
        (step h cfg s op).categories = s.categories := by
      cases op with
      | setCategory c =>
        have hc := hops c (List.mem_cons_self _ _)
        simp only [step]
        rw [(setCategory_currentCategory h cfg s c).1, (setCategory_currentCategory h cfg s c).2]
        exact ⟨hc, rfl⟩
      | search value =>
        simp only [step]
        rw [(onInput_currentCategory h cfg s value).1, (onInput_currentCategory h cfg s value).2]
        exact ⟨hs, rfl⟩
      | clear =>
        simp only [step]
        rw [(onClearClick_currentCategory h s).1, (onClearClick_currentCategory h s).2]
        exact ⟨hs, rfl⟩
    have hrec := ih (step h cfg s op) hstep.1 (fun c hc => by
      rw [hstep.2]
      exact hops c (List.mem_cons_of_mem _ hc))
    rw [run, List.foldl_cons]
    exact ⟨hrec.1, hrec.2.trans hstep.2⟩

theorem handleURLParams_valid (h : Host) (cfg : SearchConfig) (s : SearchManager)
    (hs : validCategory s.categories s.currentCategory = true)
    (hurl : ∀ c, s.urlCategory = some c → validCategory s.categories c = true) :
    validCategory (_handleURLParams h cfg s).categories
        (_handleURLParams h cfg s).currentCategory = true ∧
      (_handleURLParams h cfg s).categories = s.categories := by
  have key : ∀ s1 : SearchManager, s1.categories = s.categories →
      s1.currentCategory = s.currentCategory →
      validCategory
          (match s.urlCategory with
            | some (c :: category) =>
              if c :: category ≠ lit "all" then setCategory h cfg s1 (c :: category) else s1
            | _ => s1).categories
          (match s.urlCategory with
            | some (c :: category) =>
              if c :: category ≠ lit "all" then setCategory h cfg s1 (c :: category) else s1
            | _ => s1).currentCategory = true ∧
        (match s.urlCategory with
            | some (c :: category) =>
              if c :: category ≠ lit "all" then setCategory h cfg s1 (c :: category) else s1
            | _ => s1).categories = s.categories := by
    intro s1 hc ha
    cases hu : s.urlCategory with
    | none => simp only []; rw [hc, ha]; exact ⟨hs, rfl⟩
    | some u =>
      cases u with
      | nil => simp only []; rw [hc, ha]; exact ⟨hs, rfl⟩
      | cons c category =>
        simp only []
        split_ifs with hne
        · rw [(setCategory_currentCategory h cfg s1 _).1,
            (setCategory_currentCategory h cfg s1 _).2, hc]
          exact ⟨hurl _ hu, rfl⟩
        · rw [hc, ha]; exact ⟨hs, rfl⟩
  unfold _handleURLParams
  cases hq : s.urlSearch with
  | none => exact key _ rfl rfl
  | some q =>
    cases q with
    | nil => exact key _ rfl rfl
    | cons c q => exact key _ rfl rfl

theorem init_valid (h : Host) (cfg : SearchConfig) (tools : List ToolRecord)
    (categories : List (Str × Category)) (urlSearch urlCategory : Option Str)
    (hurl : ∀ c, urlCategory = some c → validCategory categories c = true) :
    validCategory (init h cfg tools categories urlSearch urlCategory).categories
        (init h cfg tools categories urlSearch urlCategory).currentCategory = true ∧
      (init h cfg tools categories urlSearch urlCategory).categories = categories := by
  have hall : validCategory categories (lit "all") = true := by simp [validCategory]
  exact handleURLParams_valid h cfg (rebuildIndex h (loaded tools categories urlSearch urlCategory))
    hall hurl

/-- C17 (amended): no operation validates a category id, so after `setCategory(c)` the
current category is `c` whatever `c` is.  When the `category` URL parameter (if present)
and every argument of `setCategory` are `all` or the id of a category that is not
disabled, the current category of every reachable state is `all` or such an id. -/
theorem currentCategory_valid_of_valid_arguments (h : Host) (cfg : SearchConfig)
    (tools : List ToolRecord) (categories : List (Str × Category))
    (urlSearch urlCategory : Option Str) (ops : List Op)
    (hurl : ∀ c, urlCategory = some c → validCategory categories c = true)
    (hops : ∀ c, Op.setCategory c ∈ ops → validCategory categories c = true) :
    validCategory categories
        (run h cfg (init h cfg tools categories urlSearch urlCategory) ops).currentCategory = true ∧
      ∀ c, (run h cfg (init h cfg tools categories urlSearch urlCategory)
        (ops ++ [Op.setCategory c])).currentCategory = c := by
  have hi := init_valid h cfg tools categories urlSearch urlCategory hurl
  have hr := run_valid h cfg ops (init h cfg tools categories urlSearch urlCategory) hi.1
    (fun c hc => by rw [hi.2]; exact hops c hc)
  constructor
  · rw [hr.2, hi.2] at hr
    exact hr.1
  · intro c
    rw [run, List.foldl_append]
    exact (setCategory_currentCategory h cfg _ c).1

/-- Witness of C17 (amended): start with `?category=chat`, then search, select `coding`,
clear. -/
theorem currentCategory_valid_of_valid_arguments_witness :
    validCategory sampleCategories
      (run asciiHost searchConfig
        (init asciiHost searchConfig (sampleTools 1) sampleCategories none (some (lit "chat")))
        [Op.search (lit "a"), Op.setCategory (lit "coding"), Op.clear]).currentCategory = true :=
  (currentCategory_valid_of_valid_arguments asciiHost searchConfig (sampleTools 1)
    sampleCategories none (some (lit "chat"))
    [Op.search (lit "a"), Op.setCategory (lit "coding"), Op.clear]
    (by intro c hc; cases hc; decide)
    (by intro c hc; simp at hc; rw [hc]; decide)).1

/-- C17 (counterexample): the URL parameter `category=bogus` makes `bogus`, which is no
category of the catalogue, the current category; and `setCategory("office")` makes the
disabled category `office` the current category. -/
theorem currentCategory_counterexample :
    (init asciiHost searchConfig (sampleTools 1) sampleCategories none
        (some (lit "bogus"))).currentCategory = lit "bogus" ∧
      validCategory sampleCategories (lit "bogus") = false ∧
      (run asciiHost searchConfig
        (init asciiHost searchConfig (sampleTools 1) sampleCategories none none)
        [Op.setCategory (lit "office")]).currentCategory = lit "office" ∧
      validCategory sampleCategories (lit "office") = false := by
  decide

/-- C18: with an active query (the trimmed content of the search box is not empty),
`setCategory(c)` stores and renders `_search(query)` over the whole index, the same for
every `c`. -/
theorem setCategory_with_query_runs_search (h : Host) (cfg : SearchConfig) (s : SearchManager)
    (c : Str) (hq : trim s.searchInput ≠ []) :
    (setCategory h cfg s c).currentResults =
        CurrentResults.ranked (_search h cfg s.searchIndex (trim s.searchInput)) ∧
      (setCategory h cfg s c).view =
        View.searchResults (_search h cfg s.searchIndex (trim s.searchInput))
          (trim s.searchInput) ∧
      ∀ c2, (setCategory h cfg s c2).currentResults = (setCategory h cfg s c).currentResults ∧
        (setCategory h cfg s c2).view = (setCategory h cfg s c).view := by
  cases hcase : trim s.searchInput with
  | nil => exact absurd hcase hq
  | cons a q =>
    refine ⟨?_, ?_, fun c2 => ⟨?_, ?_⟩⟩ <;> simp only [setCategory, hcase, _performSearch]

/-- Witness of C18: with the query `chatgpt` typed, selecting `chat` stores both matching
tools, one of which belongs to `coding`; filtering by category would drop it. -/
theorem setCategory_with_query_runs_search_witness :
    trim (onInput asciiHost searchConfig
        (init asciiHost searchConfig [toolNamed, toolMentioning] sampleCategories none none)
        (lit "chatgpt")).searchInput ≠ [] ∧
      (setCategory asciiHost searchConfig
        (onInput asciiHost searchConfig
          (init asciiHost searchConfig [toolNamed, toolMentioning] sampleCategories none none)
          (lit "chatgpt")) (lit "chat")).currentResults =
        CurrentResults.ranked (_search asciiHost searchConfig
          (_buildSearchIndex asciiHost [toolNamed, toolMentioning]) (lit "chatgpt")) ∧
      (_search asciiHost searchConfig
        (_buildSearchIndex asciiHost [toolNamed, toolMentioning]) (lit "chatgpt")).map
          (fun r => r.tool.category) = [some (lit "coding"), some (lit "chat")] :=
  ⟨by decide,
    (setCategory_with_query_runs_search asciiHost searchConfig
      (onInput asciiHost searchConfig
        (init asciiHost searchConfig [toolNamed, toolMentioning] sampleCategories none none)
        (lit "chatgpt")) (lit "chat") (by decide)).1,
    by decide⟩

instance : IsTotal CategoryResult listScoreGe := ⟨fun a b => Nat.le_total b.score a.score⟩

instance : IsTrans CategoryResult listScoreGe := ⟨fun _ _ _ hab hbc => Nat.le_trans hbc hab⟩

theorem categoryResults_perm (h : Host) (tools : List ToolRecord) (c : Str) :
    List.Perm (categoryResults h tools c)
      ((tools.filter (fun tool => tool.category == some c)).map
        (fun tool => (⟨tool.id, tool, _calculateWeight h tool, []⟩ : CategoryResult))) :=
  List.perm_insertionSort _ _

theorem categoryResults_sorted (h : Host) (tools : List ToolRecord) (c : Str) :
    List.Pairwise listScoreGe (categoryResults h tools c) :=
  List.sorted_insertionSort _ _

/-- Numeric reading of the weight (the value of the source for a category id `c` that
names no inherited member): for a category id `c` other than `all` and an empty
(trimmed) search box, after
`setCategory(c)` the current result list is a rearrangement of the tools whose category
is `c`, every one once, each with score equal to its static weight and no highlights,
and it is ordered by score in non-increasing order. -/
theorem setCategory_without_query_lists_category (h : Host) (cfg : SearchConfig)
    (s : SearchManager) (c : Str) (hc : c ≠ lit "all") (hq : trim s.searchInput = []) :
    ∃ results, (setCategory h cfg s c).currentResults = CurrentResults.listed results ∧
      (setCategory h cfg s c).view = View.categoryListing results ∧
      List.Perm (results.map CategoryResult.tool)
        (s.tools.filter (fun tool => tool.category == some c)) ∧
      (∀ r ∈ results, r.tool.category = some c ∧ r.score = _calculateWeight h r.tool ∧
        r.id = r.tool.id ∧ r.highlights = []) ∧
      List.Pairwise (fun a b : CategoryResult => a.score ≥ b.score) results := by
  refine ⟨categoryResults h s.tools c, ?_, ?_, ?_, ?_, categoryResults_sorted h s.tools c⟩
  · simp only [setCategory, hq, _showCategoryTools, hc, if_false]
  · simp only [setCategory, hq, _showCategoryTools, hc, if_false]
  · have hp := (categoryResults_perm h s.tools c).map CategoryResult.tool
    rw [List.map_map] at hp
    have hid : (CategoryResult.tool ∘ fun tool =>
        (⟨tool.id, tool, _calculateWeight h tool, []⟩ : CategoryResult)) = id := rfl
    rw [hid, List.map_id] at hp
    exact hp
  · intro r hr
    have hm := (categoryResults_perm h s.tools c).mem_iff.mp hr
    rw [List.mem_map] at hm
    obtain ⟨tool, ht, rfl⟩ := hm
    rw [List.mem_filter] at ht
    exact ⟨by simpa using ht.2, rfl, rfl, rfl⟩

/-- Example: selecting `misc` on the two-tool catalogue lists the free tool
(weight 45) before the other one (weight 20). -/
theorem setCategory_without_query_lists_category_witness :
    lit "misc" ≠ lit "all" ∧
      trim (init asciiHost searchConfig (sampleTools 1) sampleCategories none none).searchInput = [] ∧
      (setCategory asciiHost searchConfig
        (init asciiHost searchConfig (sampleTools 1) sampleCategories none none)
        (lit "misc")).currentResults =
        CurrentResults.listed
          [⟨some (lit "t001"), sampleTool (some (lit "free")) 1, 45, []⟩,
           ⟨some (lit "t000"), sampleTool none 0, 20, []⟩] ∧
      ∃ results,
        (setCategory asciiHost searchConfig
          (init asciiHost searchConfig (sampleTools 1) sampleCategories none none)
          (lit "misc")).currentResults = CurrentResults.listed results ∧
        List.Pairwise (fun a b : CategoryResult => a.score ≥ b.score) results :=
  ⟨by decide, by decide, by decide,
    (setCategory_without_query_lists_category asciiHost searchConfig
      (init asciiHost searchConfig (sampleTools 1) sampleCategories none none) (lit "misc")
      (by decide) (by decide)).imp (fun _ hr => ⟨hr.1, hr.2.2.2.2⟩)⟩

/-- Numeric reading of the weight (the value of the source for category ids that name no
inherited member): `_clearSearch` (the definition the class keeps) leaves the current category
unchanged, removes the `search` URL parameter and shows the listing of the current
category: the grouped catalogue for `all`, otherwise the listing of that category
sorted by weight, never the grouped catalogue.  Setting the empty query in the search
box does the same as the clear button. -/
theorem clearSearch_shows_current_category (h : Host) (cfg : SearchConfig) (s : SearchManager)
    (hmin : 0 < cfg.minLength) :
    (_clearSearch h s).currentCategory = s.currentCategory ∧
      (_clearSearch h s).urlSearch = none ∧
      (s.currentCategory = lit "all" →
        (_clearSearch h s).view = View.grouped (groupedSections s.categories s.tools)) ∧
      (s.currentCategory ≠ lit "all" →
        (_clearSearch h s).view =
            View.categoryListing (categoryResults h s.tools s.currentCategory) ∧
          (_clearSearch h s).currentResults =
            CurrentResults.listed (categoryResults h s.tools s.currentCategory) ∧
          List.Perm ((categoryResults h s.tools s.currentCategory).map CategoryResult.tool)
            (s.tools.filter (fun tool => tool.category == some s.currentCategory)) ∧
          (∀ r ∈ categoryResults h s.tools s.currentCategory,
            r.score = _calculateWeight h r.tool ∧ r.highlights = []) ∧
          List.Pairwise (fun a b : CategoryResult => a.score ≥ b.score)
            (categoryResults h s.tools s.currentCategory) ∧
          ∀ sections, (_clearSearch h s).view ≠ View.grouped sections) ∧
      onInput h cfg s [] = onClearClick h s := by
  refine ⟨?_, ?_, ?_, ?_, ?_⟩
  · exact (showCategoryTools_frame h _).1
  · exact (showCategoryTools_frame h _).2.2.2.2.1
  · intro hall
    simp [_clearSearch, _showCategoryTools, hall, _renderAllToolsByCategories]
  · intro hne
    have hv : (_clearSearch h s).view =
        View.categoryListing (categoryResults h s.tools s.currentCategory) := by
      simp [_clearSearch, _showCategoryTools, hne]
    refine ⟨hv, ?_, ?_, ?_, categoryResults_sorted h s.tools s.currentCategory, ?_⟩
    · simp [_clearSearch, _showCategoryTools, hne]
    · have hp := (categoryResults_perm h s.tools s.currentCategory).map CategoryResult.tool
      rw [List.map_map] at hp
      have hid : (CategoryResult.tool ∘ fun tool =>
          (⟨tool.id, tool, _calculateWeight h tool, []⟩ : CategoryResult)) = id := rfl
      rw [hid, List.map_id] at hp
      exact hp
    · intro r hr
      have hm := (categoryResults_perm h s.tools s.currentCategory).mem_iff.mp hr
      rw [List.mem_map] at hm
      obtain ⟨tool, _, rfl⟩ := hm
      exact ⟨rfl, rfl⟩
    · intro sections hs
      rw [hv] at hs
      cases hs
  · have ht : trim ([] : Str) = [] := rfl
    have h0 : ¬ (0 ≥ cfg.minLength) := by omega
    simp only [onInput, onClearClick, ht, List.length_nil, h0, if_false, if_true]

/-- Example: after selecting `misc`, clearing the search keeps `misc` and shows
its listing. -/
theorem clearSearch_shows_current_category_witness :
    0 < searchConfig.minLength ∧
      (_clearSearch asciiHost
        (setCategory asciiHost searchConfig
          (init asciiHost searchConfig (sampleTools 1) sampleCategories (some (lit "a")) none)
          (lit "misc"))).currentCategory = lit "misc" :=
  ⟨by decide,
    (clearSearch_shows_current_category asciiHost searchConfig
      (setCategory asciiHost searchConfig
        (init asciiHost searchConfig (sampleTools 1) sampleCategories (some (lit "a")) none)
        (lit "misc")) (by decide)).1.trans (by decide)⟩

/-- The first definition of `_clearSearch`, which the class does not keep, would show the
grouped catalogue while `misc` is selected. -/
theorem clearSearchFirst_shows_grouped :
    (_clearSearchFirst
      (setCategory asciiHost searchConfig
        (init asciiHost searchConfig (sampleTools 1) sampleCategories none none)
        (lit "misc"))).view = View.grouped [] := by
  decide

/-! ## Grouping and the round trip through a category -/

theorem lookup_groupPush (groups : List (Str × List ToolRecord)) (group key : Str)
    (item : ToolRecord) :
    ((groupPush groups group item).lookup key).getD [] =
      if group = key then (groups.lookup key).getD [] ++ [item] else (groups.lookup key).getD [] := by
  induction groups with
  | nil =>
    by_cases hg : group = key
    · simp [groupPush, List.lookup, hg]
    · have hk : (key == group) = false := by simpa using fun hkg => hg hkg.symm
      simp [groupPush, List.lookup, hg, hk]
  | cons entry rest ih =>
    obtain ⟨k, items⟩ := entry
    by_cases hkg : k = group
    · by_cases hg : group = key
      · have hk : (key == k) = true := by simp [hkg, hg]
        simp [groupPush, hkg, hg, List.lookup]
      · have hk : (key == group) = false := by simpa using fun hkg => hg hkg.symm
        simp [groupPush, hkg, hg, List.lookup, hk]
    · by_cases hk : key = k
      · subst hk
        have hg : ¬ group = key := fun hgk => hkg hgk.symm
        simp [groupPush, hkg, hg, List.lookup]
      · have hk2 : (key == k) = false := by simpa using hk
        simp only [groupPush, hkg, if_false, List.lookup, hk2]
        exact ih

theorem lookup_foldl_groupPush (tools : List ToolRecord) (key : Str) :
    ∀ groups : List (Str × List ToolRecord),
      ((tools.foldl (fun groups item => groupPush groups (jsToString item.category) item)
        groups).lookup key).getD [] =
      (groups.lookup key).getD [] ++ toolsByCategory tools key := by
  induction tools with
  | nil => intro groups; simp [toolsByCategory]
  | cons tool rest ih =>
    intro groups
    rw [List.foldl_cons, ih, lookup_groupPush]
    by_cases hg : jsToString tool.category = key
    · simp [toolsByCategory, hg, List.filter_cons]
    · simp [toolsByCategory, hg, List.filter_cons]

/-- The lookup `toolsByCategory[categoryId] || []` on the object built by `groupBy` gives
the tools filed under the key, in catalogue order. -/
theorem lookup_groupByCategory (tools : List ToolRecord) (key : Str) :
    ((groupByCategory tools).lookup key).getD [] = toolsByCategory tools key := by
  rw [groupByCategory, lookup_foldl_groupPush]
  simp [List.lookup]

theorem setCategory_all_view (h : Host) (cfg : SearchConfig) (s : SearchManager)
    (hq : trim s.searchInput = []) :
    (setCategory h cfg s (lit "all")).view = View.grouped (groupedSections s.categories s.tools) := by
  simp [setCategory, hq, _showCategoryTools, _renderAllToolsByCategories]

theorem setCategory_frame_of_no_query (h : Host) (cfg : SearchConfig) (s : SearchManager)
    (c : Str) (hq : trim s.searchInput = []) :
    (setCategory h cfg s c).tools = s.tools ∧ (setCategory h cfg s c).categories = s.categories ∧
      (setCategory h cfg s c).searchInput = s.searchInput := by
  simp only [setCategory, hq]
  exact ⟨(showCategoryTools_frame h _).2.2.1, (showCategoryTools_frame h _).2.1,
    (showCategoryTools_frame h _).2.2.2.2.2⟩

/-- C21: with an empty (trimmed) search box, `setCategory(c)` (in particular
`setCategory("office")`) followed by `setCategory("all")` shows the same grouped listing
as the initial render: the same sections in the same order, with the same tools in the
same order in each section. -/
theorem category_round_trip_restores_grouped_listing (h : Host) (cfg : SearchConfig)
    (s : SearchManager) (c : Str) (hq : trim s.searchInput = []) :
    (setCategory h cfg (setCategory h cfg s c) (lit "all")).view = (renderInitialTools s).view ∧
      (setCategory h cfg (setCategory h cfg s (lit "office")) (lit "all")).view =
        (renderInitialTools s).view ∧
      (renderInitialTools s).view = View.grouped (groupedSections s.categories s.tools) := by
  have key : ∀ c : Str, (setCategory h cfg (setCategory h cfg s c) (lit "all")).view =
      (renderInitialTools s).view := by
    intro c
    obtain ⟨ht, hc, hi⟩ := setCategory_frame_of_no_query h cfg s c hq
    rw [setCategory_all_view h cfg _ (by rw [hi]; exact hq), ht, hc]
    rfl
  exact ⟨key c, key (lit "office"), rfl⟩

/-- Witness of C21: the round trip through `office` on a three-tool catalogue. -/
theorem category_round_trip_restores_grouped_listing_witness :
    trim (loaded [toolNamed, toolMentioning, toolOnGithub] sampleCategories none
        none).searchInput = [] ∧
      (setCategory asciiHost searchConfig
        (setCategory asciiHost searchConfig
          (loaded [toolNamed, toolMentioning, toolOnGithub] sampleCategories none none)
          (lit "office")) (lit "all")).view =
        View.grouped
          [(lit "chat", [toolMentioning, toolOnGithub]), (lit "coding", [toolNamed])] :=
  ⟨by decide,
    ((category_round_trip_restores_grouped_listing asciiHost searchConfig
      (loaded [toolNamed, toolMentioning, toolOnGithub] sampleCategories none none)
      (lit "office") (by decide)).1).trans (by decide)⟩

/-! ## The enabled flag and the display order -/

/-- C22 (the code at the failing input): a category without `enabled` flag passes the
filter `enabled !== false`, gets a button in the navigation, and has a tool, yet the
loop of `_renderAllToolsByCategories` skips it with `if (!category.enabled) continue`:
no section is rendered. -/
theorem absent_enabled_flag_hides_section :
    categoriesNoFlag.map (fun entry => entry.2.enabled) = [none] ∧
      sortedCategories categoriesNoFlag = categoriesNoFlag ∧
      toolsByCategory [toolIn (lit "chat")] (lit "chat") = [toolIn (lit "chat")] ∧
      navItemIds categoriesNoFlag = [lit "all", lit "chat"] ∧
      (renderInitialTools (loaded [toolIn (lit "chat")] categoriesNoFlag none none)).view =
        View.grouped [] := by
  decide

/-- C23 (the code at the failing input): `coding` has no display order and `chat` has
the order 5; the grouped sections put `coding` last (key 999) while the category
navigation puts it first (key 0). -/
theorem navigation_order_differs_from_section_order :
    (groupedSections categoriesNoOrder [toolIn (lit "chat"), toolIn (lit "coding")]).map
        Prod.fst = [lit "chat", lit "coding"] ∧
      navItemIds categoriesNoOrder = [lit "all", lit "coding", lit "chat"] ∧
      (navCategories categoriesNoOrder).map Prod.fst ≠
        (sortedCategories categoriesNoOrder).map Prod.fst := by
  decide

/-! ## The scroll spy -/

theorem findActiveSection_eq (cfg : AppConfig) (scrollY : Int) (sections : List Section) :
    findActiveSection cfg scrollY sections =
      (sections.find? (fun sec => decide (sec.top ≤ scrollY + cfg.scrollSpyOffset ∧
        scrollY + cfg.scrollSpyOffset < sec.top + sec.height))).map Section.id := by
  induction sections with
  | nil => rfl
  | cons sec rest ih =>
    have htop : scrollY + rectTop sec scrollY = sec.top := by
      simp only [rectTop]
      omega
    simp only [findActiveSection, htop, List.find?_cons, gt_iff_lt]
    by_cases hc : sec.top ≤ scrollY + cfg.scrollSpyOffset ∧
        scrollY + cfg.scrollSpyOffset < sec.top + sec.height
    · simp [hc]
    · simp only [hc, if_false, decide_False]
      exact ih

/-- C24: for a non-empty list of registered sections (whose ids are not empty, as the ids
written in `_initScrollSpy` are) and every scroll position `y`, the active section
resolved by `_updateScrollSpy` is the first section of the list with
top ≤ y + 100 < top + height, and the first registered section when there is none. -/
theorem resolveActiveSection_first_match (scrollY : Int) (sections : List Section)
    (hne : sections ≠ []) (hid : ∀ sec ∈ sections, sec.id ≠ []) :
    resolveActiveSection appConfig scrollY sections =
      some ((sections.find? (fun sec => decide (sec.top ≤ scrollY + 100 ∧
        scrollY + 100 < sec.top + sec.height))).getD (sections.head hne)).id := by
  have hf := findActiveSection_eq appConfig scrollY sections
  have hoff : appConfig.scrollSpyOffset = 100 := rfl
  rw [hoff] at hf
  unfold resolveActiveSection
  rw [hf]
  cases hfind : sections.find? (fun sec => decide (sec.top ≤ scrollY + 100 ∧
      scrollY + 100 < sec.top + sec.height)) with
  | none =>
    cases sections with
    | nil => exact absurd rfl hne
    | cons first rest => rfl
  | some sec =>
    have hmem : sec ∈ sections := List.mem_of_find?_eq_some hfind
    have hsid := hid sec hmem
    cases hs : sec.id with
    | nil => exact absurd hs hsid
    | cons c s => simp [hs]

/-- Witness of C24: at `y = 450` the line `y + 100` lies in the section `chat`. -/
theorem resolveActiveSection_first_match_witness :
    sampleSections ≠ [] ∧
      resolveActiveSection appConfig 450 sampleSections = some (lit "chat") :=
  ⟨by decide,
    (resolveActiveSection_first_match 450 sampleSections (by decide) (by decide)).trans
      (by decide)⟩

theorem updateActiveCategoryByScroll_searchManager (app : AppManager) (sectionId : Str) :
    (_updateActiveCategoryByScroll app sectionId).searchManager = app.searchManager := by
  unfold _updateActiveCategoryByScroll
  split <;> rfl

theorem updateScrollSpy_searchManager (cfg : AppConfig) (app : AppManager) (scrollY : Int) :
    (_updateScrollSpy cfg app scrollY).searchManager = app.searchManager := by
  unfold _updateScrollSpy
  split
  · rfl
  · split
    · split
      · exact updateActiveCategoryByScroll_searchManager _ _
      · rfl
    · rfl

/-- C25: handling a scroll event leaves the whole state of the search manager as it was:
the current category, the current results, the `search` and `category` URL parameters and
the rendered listing.  In particular, after the selection of a category (`coding`, say)
a scroll event at any position, inside the cooldown window or not, leaves the current
category equal to the selected one. -/
theorem scroll_event_keeps_selection_state (cfg : AppConfig) (app : AppManager) (scrollY : Int)
    (h : Host) (scfg : SearchConfig) :
    (_updateScrollSpy cfg app scrollY).searchManager = app.searchManager ∧
      (_updateScrollSpy cfg app scrollY).searchManager.currentCategory =
        app.searchManager.currentCategory ∧
      (_updateScrollSpy cfg app scrollY).searchManager.currentResults =
        app.searchManager.currentResults ∧
      (_updateScrollSpy cfg app scrollY).searchManager.urlSearch = app.searchManager.urlSearch ∧
      (_updateScrollSpy cfg app scrollY).searchManager.urlCategory =
        app.searchManager.urlCategory ∧
      (_updateScrollSpy cfg app scrollY).searchManager.view = app.searchManager.view ∧
      (_updateScrollSpy cfg (_selectCategoryWithScroll h scfg app (lit "coding"))
        scrollY).searchManager.currentCategory = lit "coding" := by
  have hs := updateScrollSpy_searchManager cfg app scrollY
  refine ⟨hs, by rw [hs], by rw [hs], by rw [hs], by rw [hs], by rw [hs], ?_⟩
  rw [updateScrollSpy_searchManager]
  exact (setCategory_currentCategory h scfg _ _).1

/-- C26 (the code at the failing input): on a fresh page no active section is recorded.
The selection of `chat` sets the guard; a scroll event at `y = 300` inside the cooldown
window leaves the highlighted button as it was but records `all` as the active
section, while the guard is still set. -/
theorem guarded_scroll_changes_activeSection :
    freshApp.scrollSpy.activeSection = none ∧
      guardedApp.scrollSpy.activeSection = none ∧
      guardedApp.scrollSpy.isScrolling = true ∧
      guardedApp.navActive = some (lit "chat") ∧
      guardedApp.timers = [500] ∧
      (_updateScrollSpy appConfig guardedApp 300).scrollSpy.isScrolling = true ∧
      (_updateScrollSpy appConfig guardedApp 300).navActive = some (lit "chat") ∧
      (_updateScrollSpy appConfig guardedApp 300).scrollSpy.activeSection = some (lit "all") := by
  decide

/-- C27 (the code at the failing input): a selection at time 0 and another one at time
300; at time 500 the callback of the first selection runs and releases the guard,
300 ms before the end of the cooldown window [300, 800) of the second selection, whose
own callback is still pending. -/
theorem guard_released_inside_cooldown_window :
    twoSelections.now = 300 ∧ twoSelections.scrollSpy.isScrolling = true ∧
      twoSelections.timers = [500, 800] ∧
      (advanceTo twoSelections 500).now = 500 ∧
      (advanceTo twoSelections 500).scrollSpy.isScrolling = false ∧
      (advanceTo twoSelections 500).timers = [800] := by
  decide

/-! ## Event listeners -/

theorem lookup_onEvent {W D : Type} (listeners : List (Str × List (Listener W D)))
    (event key : Str) (callback : Listener W D) :
    ((onEvent listeners event callback).lookup key).getD [] =
      if event = key then (listeners.lookup key).getD [] ++ [callback]
      else (listeners.lookup key).getD [] := by
  induction listeners with
  | nil =>
    by_cases hg : event = key
    · simp [onEvent, List.lookup, hg]
    · have hk : (key == event) = false := by simpa using fun hke => hg hke.symm
      simp [onEvent, List.lookup, hg, hk]
  | cons entry rest ih =>
    obtain ⟨k, callbacks⟩ := entry
    by_cases hke : k = event
    · by_cases hg : event = key
      · simp [onEvent, hke, hg, List.lookup]
      · have hk : (key == event) = false := by simpa using fun hke => hg hke.symm
        simp [onEvent, hke, hg, List.lookup, hk]
    · by_cases hk : key = k
      · subst hk
        have hg : ¬ event = key := fun hgk => hke hgk.symm
        simp [onEvent, hke, hg, List.lookup]
      · have hk2 : (key == k) = false := by simpa using hk
        simp only [onEvent, hke, if_false, List.lookup, hk2]
        exact ih

theorem lookup_foldl_onEvent {W D : Type} (event : Str) (callbacks : List (Listener W D)) :
    ∀ listeners : List (Str × List (Listener W D)),
      ((callbacks.foldl (fun registry callback => onEvent registry event callback)
        listeners).lookup event).getD [] = (listeners.lookup event).getD [] ++ callbacks := by
  induction callbacks with
  | nil => intro listeners; simp
  | cons callback rest ih =>
    intro listeners
    rw [List.foldl_cons, ih, lookup_onEvent]
    simp

theorem foldl_emitStep {W D : Type} (data : D) (callbacks : List (Listener W D)) :
    ∀ acc : EmitResult W D,
      (callbacks.foldl (emitStep data) acc).calls =
          acc.calls ++ callbacks.map (fun callback => (callback.ident, data)) ∧
        (callbacks.foldl (emitStep data) acc).world =
          callbacks.foldl (fun world callback => (callback.call data world).world) acc.world := by
  induction callbacks with
  | nil => intro acc; simp
  | cons callback rest ih =>
    intro acc
    rw [List.foldl_cons, List.foldl_cons]
    obtain ⟨h1, h2⟩ := ih (emitStep data acc callback)
    rw [h1, h2]
    cases hc : callback.call data acc.world <;> simp [emitStep, hc, Outcome.world]

theorem afterCall_of_no_unregister {W D : Type} (callback : Listener W D)
    (callbacks : List (Listener W D)) (hu : callback.unregisters = []) :
    afterCall callback callbacks = callbacks := by
  simp [afterCall, hu]

theorem emitLoop_of_no_unregister {W D : Type} (data : D) (callbacks : List (Listener W D))
    (hu : ∀ callback ∈ callbacks, callback.unregisters = []) :
    ∀ (remaining k : Nat) (acc : EmitResult W D), remaining + k = callbacks.length →
      emitLoop data remaining k callbacks acc = (callbacks.drop k).foldl (emitStep data) acc := by
  intro remaining
  induction remaining with
  | zero =>
    intro k acc hk
    have hd : callbacks.drop k = [] := List.drop_eq_nil_of_le (by omega)
    simp [emitLoop, hd]
  | succ n ih =>
    intro k acc hk
    have hlt : k < callbacks.length := by omega
    have hget : callbacks.get? k = some (callbacks.get ⟨k, hlt⟩) := List.get?_eq_get hlt
    have hmem : callbacks.get ⟨k, hlt⟩ ∈ callbacks := List.get_mem callbacks k hlt
    have hdrop : callbacks.drop k = callbacks.get ⟨k, hlt⟩ :: callbacks.drop (k + 1) :=
      (List.drop_eq_getElem_cons hlt)
    rw [emitLoop, hget]
    simp only []
    rw [afterCall_of_no_unregister _ _ (hu _ hmem), ih (k + 1) _ (by omega), hdrop,
      List.foldl_cons]

/-- When no registered callback unregisters a callback while it runs, `_emit` for an event
of the registry calls every callback of the event once, in registration order, with
the event data, whether the callbacks return or throw. -/
theorem emit_calls_every_listener_of_no_unregister {W D : Type}
    (listeners : List (Str × List (Listener W D))) (event : Str) (callbacks : List (Listener W D))
    (data : D) (world : W) (hl : listeners.lookup event = some callbacks)
    (hu : ∀ callback ∈ callbacks, callback.unregisters = []) :
    (_emit listeners event data world).map EmitResult.calls =
      some (callbacks.map (fun callback => (callback.ident, data))) := by
  simp only [_emit, hl, Option.map_some']
  rw [emitLoop_of_no_unregister data callbacks hu callbacks.length 0 _ (by omega)]
  simp [(foldl_emitStep data callbacks ⟨world, [], []⟩).1]

/-- C28 (the code at the failing input): two listeners are registered for `search-start`;
the first one unregisters itself when it is called.  `_emit` calls the first listener
only: the `forEach` runs over the array that `off` has just spliced, so the second
listener, now at index 0, is passed over.  And `_emit` for the event name `constructor`
does not return. -/
theorem emit_skips_listener_after_self_removal :
    (sampleRegistry.lookup (lit "search-start")).map (fun callbacks =>
        callbacks.map (fun callback => callback.ident)) = some [1, 2] ∧
      (_emit sampleRegistry (lit "search-start") 7 0).map EmitResult.calls = some [(1, 7)] ∧
      (_emit sampleRegistry (lit "search-start") 7 0).map EmitResult.world = some 1 ∧
      (_emit sampleRegistry (lit "constructor") 7 0).isNone = true := by
  decide

/-! ## Blob matches are never dropped -/

theorem calculateMatch_score_pos (h : Host) (item : IndexEntry) (term : Str)
    (hb : includes item.searchText term = true) : 1 ≤ (_calculateMatch h item term).score := by
  simp only [_calculateMatch, hb]
  cases includes (h.toLowerCase (displayName h item.tool)) term <;>
  cases fieldMatches h item.tool.id term <;>
  cases fieldMatches h item.tool.category term <;>
  cases tagsMatch h item.tool.tags term <;>
  cases includes (h.toLowerCase (displayDescription h item.tool)) term <;>
  simp

theorem termScoreSum_pos (h : Host) (terms : List Str) (item : IndexEntry)
    (hany : terms.any (fun term => includes item.searchText term) = true) :
    0 < termScoreSum h terms item := by
  induction terms with
  | nil => simp at hany
  | cons t ts ih =>
    by_cases ht : includes item.searchText t = true
    · have h1 := calculateMatch_score_pos h item t ht
      simp only [termScoreSum, List.filter_cons, ht, if_true, List.map_cons, List.sum_cons]
      omega
    · have hrest : ts.any (fun term => includes item.searchText term) = true := by
        simpa [ht] using hany
      have := ih hrest
      simpa [termScoreSum, List.filter_cons, ht] using this

theorem scoreEntry_of_match (h : Host) (terms : List Str) (item : IndexEntry)
    (hany : terms.any (fun term => includes item.searchText term) = true) :
    scoreEntry h terms item =
      some (mkResult item (termScoreSum h terms item * item.weight)
        (scoreItem h item terms).highlights) := by
  have hpos := termScoreSum_pos h terms item hany
  simp [scoreEntry, scoreItem_hasMatch, scoreItem_score, hany, hpos]

theorem filterMap_scoreEntry (h : Host) (terms : List Str) (index : List IndexEntry) :
    index.filterMap (scoreEntry h terms) =
      (index.filter (fun item => terms.any (fun term => includes item.searchText term))).map
        (fun item => mkResult item (termScoreSum h terms item * item.weight)
          (scoreItem h item terms).highlights) := by
  induction index with
  | nil => rfl
  | cons item rest ih =>
    by_cases hany : terms.any (fun term => includes item.searchText term) = true
    · rw [List.filterMap_cons, scoreEntry_of_match h terms item hany, List.filter_cons]
      simp only [hany, if_true, List.map_cons]
      rw [ih]
    · have hno : ∀ term ∈ terms, includes item.searchText term = false := by
        intro term ht
        cases hi : includes item.searchText term with
        | false => rfl
        | true => exact absurd (List.any_eq_true.mpr ⟨term, ht, hi⟩) hany
      rw [List.filterMap_cons, scoreEntry_none_of_no_match h terms item hno, List.filter_cons]
      simp only [hany]
      exact ih

/-- C29: for a non-empty query and an index in which at most `maxResults` entries have a
blob that contains one of the terms, the entries of the results of `_search` are a
rearrangement of exactly those index entries, each one once; an entry whose blob
contains a term gets a per-term score of at least 1 for it, so the test `score > 0`
drops no entry matched on its blob. -/
theorem search_returns_every_blob_match (h : Host) (cfg : SearchConfig)
    (index : List IndexEntry) (query : Str) (hq : query ≠ [])
    (hcount : (index.filter (fun item =>
      (searchTerms h query).any (fun term => includes item.searchText term))).length ≤
        cfg.maxResults) :
    List.Perm ((_search h cfg index query).map toEntry)
        (index.filter (fun item =>
          (searchTerms h query).any (fun term => includes item.searchText term))) ∧
      (∀ (item : IndexEntry) (term : Str), includes item.searchText term = true →
        1 ≤ (_calculateMatch h item term).score) ∧
      ∀ item ∈ index, (searchTerms h query).any (fun term => includes item.searchText term) = true →
        0 < termScoreSum h (searchTerms h query) item := by
  refine ⟨?_, fun item term hb => calculateMatch_score_pos h item term hb,
    fun item _ hany => termScoreSum_pos h _ item hany⟩
  rw [search_of_ne_nil h cfg index query hq, filterMap_scoreEntry]
  have hlen1 : ((index.filter (fun item =>
      (searchTerms h query).any (fun term => includes item.searchText term))).map
        (fun item => mkResult item (termScoreSum h (searchTerms h query) item * item.weight)
          (scoreItem h item (searchTerms h query)).highlights)).length ≤
      cfg.maxResults * 2 + 1 := by
    rw [List.length_map]
    omega
  rw [List.take_of_length_le hlen1]
  have hperm := List.perm_insertionSort scoreGe
    ((index.filter (fun item =>
      (searchTerms h query).any (fun term => includes item.searchText term))).map
        (fun item => mkResult item (termScoreSum h (searchTerms h query) item * item.weight)
          (scoreItem h item (searchTerms h query)).highlights))
  have hlen2 : (sortByScore ((index.filter (fun item =>
      (searchTerms h query).any (fun term => includes item.searchText term))).map
        (fun item => mkResult item (termScoreSum h (searchTerms h query) item * item.weight)
          (scoreItem h item (searchTerms h query)).highlights))).length ≤ cfg.maxResults := by
    rw [sortByScore, hperm.length_eq, List.length_map]
    exact hcount
  rw [List.take_of_length_le hlen2]
  have hmap := (hperm.map toEntry)
  rw [List.map_map] at hmap
  have hid : ∀ l : List IndexEntry, l.map (toEntry ∘ fun item =>
      mkResult item (termScoreSum h (searchTerms h query) item * item.weight)
        (scoreItem h item (searchTerms h query)).highlights) = l := by
    intro l
    induction l with
    | nil => rfl
    | cons a l ih => rw [List.map_cons, ih]; rfl
  rw [hid] at hmap
  exact hmap

/-- Witness of C29: the query `a` on the two-tool catalogue returns both tools. -/
theorem search_returns_every_blob_match_witness :
    lit "a" ≠ [] ∧
      List.Perm
        ((_search asciiHost searchConfig (_buildSearchIndex asciiHost (sampleTools 1))
          (lit "a")).map toEntry)
        ((_buildSearchIndex asciiHost (sampleTools 1)).filter (fun item =>
          (searchTerms asciiHost (lit "a")).any (fun term => includes item.searchText term))) :=
  ⟨by decide,
    (search_returns_every_blob_match asciiHost searchConfig
      (_buildSearchIndex asciiHost (sampleTools 1)) (lit "a") (by decide) (by decide)).1⟩

/-! ## Highlighting -/

theorem patternLiteral_escapeRegExp (s : Str) : patternLiteral (_escapeRegExp s) = s := by
  induction s with
  | nil => rfl
  | cons c s ih =>
    have hcons : _escapeRegExp (c :: s) =
        (if c ∈ regExpSpecial then [92, c] else [c]) ++ _escapeRegExp s := by
      simp [_escapeRegExp]
    rw [hcons]
    by_cases hc : c ∈ regExpSpecial
    · simp only [hc, if_true, List.cons_append, List.nil_append, patternLiteral, ih]
    · have h92 : c ≠ 92 := by
        intro h92
        apply hc
        rw [h92]
        decide
      simp only [hc, if_false, List.cons_append, List.nil_append]
      cases hs : _escapeRegExp s with
      | nil =>
        rw [hs] at ih
        rw [← ih]
        rfl
      | cons d rest =>
        rw [hs] at ih
        simp only [patternLiteral, h92, if_false]
        rw [ih]

set_option maxRecDepth 100000 in
/-- C30 (the code at the failing input): the text `x A` holds no markup; under the query
`a mark` the term `a` wraps `A`, then the term `mark` matches inside the two wrappers
just inserted.  Deleting every opening and closing wrapper from the result leaves
`x <mark ...>A</mark>`, not the original text. -/
theorem applyHighlight_matches_inside_markup :
    includes (lit "x A") (lit "<mark") = false ∧
      _applyHighlight asciiHost asciiCanon (lit "x A") (lit "a") =
        lit "x " ++ markOpen ++ lit "A" ++ markClose ∧
      _applyHighlight asciiHost asciiCanon (lit "x A") (lit "a mark") =
        lit "x <" ++ markOpen ++ lit "mark" ++ markClose ++ markOpen.drop 5 ++ lit "A</" ++
          markOpen ++ lit "mark" ++ markClose ++ lit ">" ∧
      stripMarks 0 (_applyHighlight asciiHost asciiCanon (lit "x A") (lit "a mark")) =
        lit "x " ++ markOpen ++ lit "A" ++ markClose ∧
      stripMarks 0 (_applyHighlight asciiHost asciiCanon (lit "x A") (lit "a mark")) ≠
        lit "x A" := by
  decide

/-! ## Weights that are not numbers -/

/-- For a tool whose category names no inherited member the value returned by
`_calculateWeight` is the number given by the numeric reading. -/
theorem weightValue_of_plain_category (h : Host) (tool : ToolRecord)
    (hc : ∀ c, tool.category = some c → c ∉ inheritedKeys) :
    weightValue h tool = JsValue.number (_calculateWeight h tool) := by
  unfold weightValue _calculateWeight categoryBonus
  cases hcat : tool.category with
  | none => simp
  | some c =>
    cases c with
    | nil => simp
    | cons a s =>
      have hni := hc (a :: s) hcat
      cases hl : categoryWeights.lookup (a :: s) with
      | none => simp [hl, hni]
      | some n => simp [hl]

/-- C12 (the code at the failing input): for a tool of the category `constructor`, which
is not a key of the table, the lookup finds the inherited member and the weight returned
is not a number, where the claim gives 20 + 0 + 0 + 0 = 20. -/
theorem calculateWeight_not_number_for_inherited_category :
    toolPa.category = some (lit "constructor") ∧
      categoryWeights.lookup (lit "constructor") = none ∧
      (∀ keyword ∈ hotKeywords, includes (toolNameLower asciiHost toolPa) keyword = false) ∧
      weightValue asciiHost toolPa = JsValue.notNumber ∧
      weightValue asciiHost toolPa ≠ JsValue.number 20 := by
  decide

/-- C9 (the code at the failing input): the query `x` on a catalogue holding one tool of the
category `constructor` returns that tool with a score that is not a number, hence not
greater than 0. -/
theorem search_score_not_number_for_inherited_category :
    searchValue asciiHost searchConfig [toolPa] (lit "x") = [(toolPa, JsValue.notNumber)] ∧
      termScoreSum asciiHost (searchTerms asciiHost (lit "x")) (buildEntry asciiHost toolPa) =
        10 := by
  decide

/-- C10 (the code at the failing input): both tools are of the category `constructor` and
have the same weight; `chatgpt` is in the name of `ca` and only in the description of
`cb`.  Both scores are not numbers, so neither is greater, and the sort leaves `cb`
before `ca`. -/
theorem name_match_not_ranked_first_for_inherited_category :
    weightValue asciiHost toolCa = weightValue asciiHost toolCb ∧
      _calculateWeight asciiHost toolCa = 30 ∧ _calculateWeight asciiHost toolCb = 30 ∧
      searchTerms asciiHost (lit "ChatGPT") = [lit "chatgpt"] ∧
      includes (asciiHost.toLowerCase (displayName asciiHost toolCa)) (lit "chatgpt") = true ∧
      (_calculateMatch asciiHost (buildEntry asciiHost toolCb) (lit "chatgpt")).score = 2 ∧
      searchValue asciiHost searchConfig [toolCb, toolCa] (lit "ChatGPT") =
        [(toolCb, JsValue.notNumber), (toolCa, JsValue.notNumber)] := by
  decide

/-- C19 (the code at the failing input): with an empty search box, `setCategory` of
`constructor` lists the tool `pa` (20 by the weight formula) before the free tool `pb`
(45 by the formula), with scores that are not numbers. -/
theorem category_listing_not_sorted_for_inherited_category :
    (setCategory asciiHost searchConfig (loaded [toolPa, toolPb] [] none none)
        (lit "constructor")).currentCategory = lit "constructor" ∧
      _calculateWeight asciiHost toolPa = 20 ∧ _calculateWeight asciiHost toolPb = 45 ∧
      listingValue asciiHost [toolPa, toolPb] (lit "constructor") =
        [(toolPa, JsValue.notNumber), (toolPb, JsValue.notNumber)] := by
  decide

/-- C20 (the code at the failing input): after the selection of `constructor`,
`_clearSearch` keeps that category and shows its listing, in which `pa` (20 by the
weight formula) stands before `pb` (45): the listing is not sorted by weight. -/
theorem clearSearch_listing_not_sorted_for_inherited_category :
    (_clearSearch asciiHost
        (setCategory asciiHost searchConfig
          (loaded [toolPa, toolPb] [] (some (lit "x")) none)
          (lit "constructor"))).currentCategory = lit "constructor" ∧
      (_clearSearch asciiHost
        (setCategory asciiHost searchConfig
          (loaded [toolPa, toolPb] [] (some (lit "x")) none)
          (lit "constructor"))).urlSearch = none ∧
      listingValue asciiHost
          (_clearSearch asciiHost
            (setCategory asciiHost searchConfig
              (loaded [toolPa, toolPb] [] (some (lit "x")) none)
              (lit "constructor"))).tools (lit "constructor") =
        [(toolPa, JsValue.notNumber), (toolPb, JsValue.notNumber)] := by
  decide

end AbeiTools
